import Mathlib

/-!
Verification of the image restoration/enhancement pipeline of the
Restauracion_Imagen repository: a shallow embedding of the numpy/OpenCV
code in `src/utils/imagen.py`, `src/utils/preprocessing.py`,
`src/utils/postprocessing.py`, `src/utils/metrics.py`, `src/pipeline.py`
and the metric call site of `app.py`, together with theorems settling the
specification claims about it.

Conventions of the embedding:
* a numpy array is an `NDImg`: a dimension list (`[h, w]` for 2-D
  grayscale, `[h, w, c]` for 3-D), a dtype tag, and a total pixel map
  `ℕ → ℕ → ℕ → ℚ` (row, column, channel; indices outside the shape are
  irrelevant to every definition below);
* uint8 arrays hold integer values in `[0, 255]`; arithmetic the Python
  code performs in float32/float64 is modelled exactly over `ℚ`, and the
  transcendental parts (Gaussian/bilateral weights, gamma powers,
  logarithms) over `ℝ`;
* code that can raise a Python exception is embedded in
  `Except String`; code that cannot raise returns plainly.
-/

namespace Restauracion

/-- Numpy dtypes distinguished by the pipeline: `uint8` (canonical
images), the two float dtypes, and a representative non-float integer
dtype. -/
inductive DType
  | uint8
  | float32
  | float64
  | int16
deriving DecidableEq

/-- Shallow embedding of a numpy image array. -/
structure NDImg where
  shape : List ℕ
  dtype : DType
  pix : ℕ → ℕ → ℕ → ℚ

/-- Height: first dimension of the shape. -/
def NDImg.h (img : NDImg) : ℕ := img.shape.getD 0 0

/-- Width: second dimension of the shape. -/
def NDImg.w (img : NDImg) : ℕ := img.shape.getD 1 0

/-- Effective channel count: third dimension for 3-D arrays, 1 for 2-D
arrays (a 2-D grayscale array is traversed as a single channel). -/
def NDImg.cEff (img : NDImg) : ℕ :=
  if img.shape.length = 3 then img.shape.getD 2 0 else 1

/-- numpy `size`: product of the dimensions. -/
def NDImg.size (img : NDImg) : ℕ := img.shape.prod

/-- `verify_image` of `src/utils/imagen.py`: accepts exactly the arrays
with 2 or 3 dimensions, channel count in {1, 3} when 3-D, and nonzero
size (the Python function raises `ValueError` otherwise; we model it as
the acceptance predicate). -/
def verify_image (img : NDImg) : Bool :=
  (img.shape.length == 2 || img.shape.length == 3)
    && (img.shape.length != 3 || (img.shape.getD 2 0 == 1 || img.shape.getD 2 0 == 3))
    && (img.size != 0)

/-- Truncation toward zero, the conversion C (and hence numpy `astype`)
applies from float to integer dtypes. -/
def intTrunc (x : ℚ) : ℤ := if 0 ≤ x then ⌊x⌋ else -⌊-x⌋

/-- OpenCV `cvRound` on exact rational intermediate values: round half
to even. -/
def roundHalfEvenQ (x : ℚ) : ℤ :=
  if x + 1/2 = (⌊x + 1/2⌋ : ℚ) ∧ ⌊x + 1/2⌋ % 2 ≠ 0 then ⌊x + 1/2⌋ - 1 else ⌊x + 1/2⌋

/-- OpenCV `cvRound` on real intermediate values: round half to even. -/
noncomputable def roundHalfEvenR (x : ℝ) : ℤ :=
  if x + 1/2 = (⌊x + 1/2⌋ : ℝ) ∧ ⌊x + 1/2⌋ % 2 ≠ 0 then ⌊x + 1/2⌋ - 1 else ⌊x + 1/2⌋

/-- OpenCV `saturate_cast<uchar> ∘ cvRound` for rational values. -/
def sat8Q (x : ℚ) : ℚ := ((max 0 (min 255 (roundHalfEvenQ x)) : ℤ) : ℚ)

/-- OpenCV `saturate_cast<uchar> ∘ cvRound` for real values. -/
noncomputable def sat8R (x : ℝ) : ℚ := ((max 0 (min 255 (roundHalfEvenR x)) : ℤ) : ℚ)

/-- numpy `np.clip(x, 0, 255)` followed by `astype(np.uint8)`
(truncation; the clipped value is nonnegative, so truncation is floor). -/
def u8clipTrunc (x : ℚ) : ℚ := ((⌊max 0 (min 255 x)⌋ : ℤ) : ℚ)

/-- Real-valued variant of `u8clipTrunc`. -/
noncomputable def u8clipTruncR (x : ℝ) : ℚ := ((⌊max 0 (min 255 x)⌋ : ℤ) : ℚ)

/-- Index clamped to `[0, len-1]` (numpy-style replicate border). -/
def clampIdx (len : ℕ) (i : ℤ) : ℕ := (max 0 (min ((len : ℤ) - 1) i)).toNat

/-- OpenCV `BORDER_REFLECT_101` index folding (`...cba|abcdefgh|gfe...`),
the default border of `GaussianBlur`, `filter2D`, `Laplacian` and
`bilateralFilter`.  OpenCV special-cases a dimension of length 1 to
index 0; otherwise the pattern has period `2*len - 2`. -/
def reflect101 (len : ℕ) (i : ℤ) : ℕ :=
  if len ≤ 1 then 0
  else (if i % (2 * (len : ℤ) - 2) < (len : ℤ) then i % (2 * (len : ℤ) - 2)
        else (2 * (len : ℤ) - 2) - i % (2 * (len : ℤ) - 2)).toNat

/-- Sum of `f` over all in-bounds elements of the array. -/
def elemSum (img : NDImg) (f : ℕ → ℕ → ℕ → ℚ) : ℚ :=
  ∑ i ∈ Finset.range img.h, ∑ j ∈ Finset.range img.w,
    ∑ k ∈ Finset.range img.cEff, f i j k

/-- Number of in-bounds elements (equals `size` for well-formed shapes). -/
def elemCount (img : NDImg) : ℕ := img.h * img.w * img.cEff

/-- `np.mean((original - processed) ** 2)` over float64 images: the mean
squared pixel difference, computed exactly over `ℚ` (uint8 values are
exact in float64). -/
def mseQ (o p : NDImg) : ℚ :=
  elemSum o (fun i j k => (o.pix i j k - p.pix i j k) ^ 2) / (elemCount o : ℚ)

/-- Coordinate mapping of `cv2.resize`: destination index `d` samples
source coordinate `(d + 1/2) * srcLen / dstLen - 1/2`. -/
def srcCoord (srcLen dstLen : ℕ) (d : ℕ) : ℚ :=
  ((d : ℚ) + 1/2) * srcLen / dstLen - 1/2

/-- Model of `cv2.resize` with `INTER_LINEAR` on 8-bit images: bilinear
interpolation of the four surrounding samples with coordinates clamped
at the border, rounded and saturated to uint8. -/
def cv2resizeLinear (img : NDImg) (newW newH : ℕ) : NDImg :=
  ⟨if img.shape.length = 3 then [newH, newW, img.shape.getD 2 0] else [newH, newW],
   .uint8,
   fun i j k =>
    let sy := srcCoord img.h newH i
    let sx := srcCoord img.w newW j
    let y0 : ℤ := ⌊sy⌋
    let x0 : ℤ := ⌊sx⌋
    let ty := sy - (y0 : ℚ)
    let tx := sx - (x0 : ℚ)
    let v : ℤ → ℤ → ℚ := fun a b => img.pix (clampIdx img.h a) (clampIdx img.w b) k
    sat8Q ((1 - ty) * ((1 - tx) * v y0 x0 + tx * v y0 (x0 + 1))
           + ty * ((1 - tx) * v (y0 + 1) x0 + tx * v (y0 + 1) (x0 + 1)))⟩

/-- Cubic convolution weight at fractional offset `t ∈ [0,1)` for the
tap at relative position `o ∈ {-1, 0, 1, 2}`, OpenCV's `A = -0.75`
kernel. -/
def cubicTap (t : ℚ) (o : ℤ) : ℚ :=
  let A : ℚ := -3/4
  if o = -1 then ((A * (t + 1) - 5 * A) * (t + 1) + 8 * A) * (t + 1) - 4 * A
  else if o = 0 then ((A + 2) * t - (A + 3)) * t * t + 1
  else if o = 1 then ((A + 2) * (1 - t) - (A + 3)) * (1 - t) * (1 - t) + 1
  else 1 - (((A * (t + 1) - 5 * A) * (t + 1) + 8 * A) * (t + 1) - 4 * A)
         - (((A + 2) * t - (A + 3)) * t * t + 1)
         - (((A + 2) * (1 - t) - (A + 3)) * (1 - t) * (1 - t) + 1)

/-- Model of `cv2.resize` with `INTER_CUBIC` on 8-bit images: 4×4 cubic
convolution (A = -0.75) with border clamping, rounded and saturated to
uint8. -/
def cv2resizeCubic (img : NDImg) (newW newH : ℕ) : NDImg :=
  ⟨if img.shape.length = 3 then [newH, newW, img.shape.getD 2 0] else [newH, newW],
   .uint8,
   fun i j k =>
    let sy := srcCoord img.h newH i
    let sx := srcCoord img.w newW j
    let y0 : ℤ := ⌊sy⌋
    let x0 : ℤ := ⌊sx⌋
    let ty := sy - (y0 : ℚ)
    let tx := sx - (x0 : ℚ)
    let v : ℤ → ℤ → ℚ := fun a b => img.pix (clampIdx img.h a) (clampIdx img.w b) k
    sat8Q (∑ a ∈ Finset.Icc (-1 : ℤ) 2, ∑ b ∈ Finset.Icc (-1 : ℤ) 2,
      cubicTap ty a * cubicTap tx b * v (y0 + a) (x0 + b))⟩

/-- The two possible results of `calculate_psnr`: `float('inf')` or an
ordinary numeric value.  The function has no "unavailable" outcome. -/
inductive PsnrResult
  | inf
  | val (r : ℝ)

/-- `PsnrResult.isValue r` holds exactly when `r` is an ordinary numeric
value (not `float('inf')`). -/
def PsnrResult.isValue : PsnrResult → Bool
  | .inf => false
  | .val _ => true

/-- The numeric PSNR formula `20 * log10 (255 / sqrt mse)` of
`src/utils/metrics.py`. -/
noncomputable def psnrValue (m : ℚ) : ℝ :=
  20 * Real.logb 10 (255 / Real.sqrt (m : ℝ))

/-- `calculate_psnr` of `src/utils/metrics.py`: if the shapes differ the
processed image is first resized (default `INTER_LINEAR`) to the
original's width and height; both are converted to float64; the function
returns `float('inf')` when the MSE is 0 and the numeric PSNR value
otherwise.  It never returns an "unavailable" marker. -/
noncomputable def calculate_psnr (original processed : NDImg) : PsnrResult :=
  let p := if original.shape = processed.shape then processed
           else cv2resizeLinear processed original.w original.h
  let m := mseQ original p
  if m = 0 then .inf else .val (psnrValue m)

/-- Entry `i` of the unnormalised 1-D Gaussian kernel OpenCV computes
for `GaussianBlur` with kernel size 11 and sigma 0: the effective sigma
is `0.3*((11-1)*0.5 - 1) + 0.8 = 2`, so the entry is
`exp (-(i-5)^2 / (2*2^2))`. -/
noncomputable def gk (i : ℕ) : ℝ := Real.exp (-(((i : ℝ) - 5) ^ 2) / 8)

/-- Normalisation constant of the 11-tap Gaussian kernel. -/
noncomputable def gkTotal : ℝ := ∑ i ∈ Finset.range 11, gk i

/-- Normalised 11-tap Gaussian kernel weight. -/
noncomputable def gw (i : ℕ) : ℝ := gk i / gkTotal

/-- Model of `cv2.GaussianBlur(·, (11, 11), 0)` on a float64 channel:
separable 11×11 Gaussian convolution with `BORDER_REFLECT_101`. -/
noncomputable def gblur11 (h w : ℕ) (f : ℕ → ℕ → ℝ) (i j : ℕ) : ℝ :=
  ∑ a ∈ Finset.range 11, ∑ b ∈ Finset.range 11,
    gw a * gw b * f (reflect101 h ((i : ℤ) + a - 5)) (reflect101 w ((j : ℤ) + b - 5))

/-- SSIM stabilisation constant `C1 = (0.01 * 255)^2`. -/
noncomputable def ssimC1 : ℝ := (0.01 * 255) ^ 2

/-- SSIM stabilisation constant `C2 = (0.03 * 255)^2`. -/
noncomputable def ssimC2 : ℝ := (0.03 * 255) ^ 2

/-- One entry of the SSIM map of `calculate_ssim`
(`src/utils/metrics.py`): Gaussian local means, variances and covariance
at element `(i, j, k)` combined by the SSIM formula. -/
noncomputable def ssimMap (x y : NDImg) (i j k : ℕ) : ℝ :=
  let u : ℕ → ℕ → ℝ := fun a b => (x.pix a b k : ℝ)
  let v : ℕ → ℕ → ℝ := fun a b => (y.pix a b k : ℝ)
  let mu1 := gblur11 x.h x.w u i j
  let mu2 := gblur11 x.h x.w v i j
  let sigma1_sq := gblur11 x.h x.w (fun a b => u a b ^ 2) i j - mu1 ^ 2
  let sigma2_sq := gblur11 x.h x.w (fun a b => v a b ^ 2) i j - mu2 ^ 2
  let sigma12 := gblur11 x.h x.w (fun a b => u a b * v a b) i j - mu1 * mu2
  ((2 * mu1 * mu2 + ssimC1) * (2 * sigma12 + ssimC2)) /
    ((mu1 ^ 2 + mu2 ^ 2 + ssimC1) * (sigma1_sq + sigma2_sq + ssimC2))

/-- `np.mean(ssim_map)` over all elements of the (same-shape) pair. -/
noncomputable def ssimMean (x y : NDImg) : ℝ :=
  (∑ i ∈ Finset.range x.h, ∑ j ∈ Finset.range x.w,
      ∑ k ∈ Finset.range x.cEff, ssimMap x y i j k) / (elemCount x : ℝ)

/-- `calculate_ssim` of `src/utils/metrics.py` with its default window
size 11: if the shapes differ the processed image is first resized to
the original's width and height; the function then always returns the
mean of the SSIM map — it has no "unavailable" outcome and no minimum
size check. -/
noncomputable def calculate_ssim (original processed : NDImg) : ℝ :=
  let p := if original.shape = processed.shape then processed
           else cv2resizeLinear processed original.w original.h
  ssimMean original p

/-- The SSIM branch of the metrics call site of `app.py` (lines
867–877): SSIM is computed only when the smaller of the original's
height and width is at least 7; otherwise the call site logs a warning
and marks the metric unavailable (`None`, rendered as "N/A").  The
numeric value (skimage's structural_similarity there) is modelled by the
repository's own SSIM mean; only the guard is relevant to the claims. -/
noncomputable def app_ssim (original processed : NDImg) : Option ℝ :=
  if 7 ≤ min original.h original.w then some (ssimMean original processed)
  else none

/-- Mean of a 2-D field over `h × w` entries (`np.mean` on a channel). -/
def meanHW (h w : ℕ) (f : ℕ → ℕ → ℚ) : ℚ :=
  (∑ i ∈ Finset.range h, ∑ j ∈ Finset.range w, f i j) / ((h : ℚ) * w)

/-- Variance of a 2-D field (`ndarray.var()`). -/
def varHW (h w : ℕ) (f : ℕ → ℕ → ℚ) : ℚ :=
  meanHW h w fun i j => (f i j - meanHW h w f) ^ 2

/-- Mean of one channel of a 3-D array (`np.mean(img[:, :, k])`). -/
def channelMean (img : NDImg) (k : ℕ) : ℚ :=
  meanHW img.h img.w fun i j => img.pix i j k

/-- Row-major list of the values of a 2-D field. -/
def listHW (h w : ℕ) (f : ℕ → ℕ → ℚ) : List ℚ :=
  (List.range h).flatMap fun i => (List.range w).map fun j => f i j

/-- Replace channel `c0` of a 3-D array by a new 2-D field
(`img[:, :, c0] = ...`). -/
def setChannel (img : NDImg) (c0 : ℕ) (g : ℕ → ℕ → ℚ) : NDImg :=
  ⟨img.shape, img.dtype, fun i j k => if k = c0 then g i j else img.pix i j k⟩

/-- Model of `cv2.cvtColor(·, COLOR_BGR2GRAY)`: the 8-bit luminance
combination `0.299 R + 0.587 G + 0.114 B`, rounded; requires a 3-channel
3-D input (OpenCV raises `cv2.error` otherwise) and produces a 2-D
array. -/
def bgr2gray (img : NDImg) : Except String NDImg :=
  if img.shape.length = 3 ∧ img.shape.getD 2 0 = 3 then
    .ok ⟨[img.h, img.w], .uint8, fun i j _ =>
      sat8Q (0.299 * img.pix i j 2 + 0.587 * img.pix i j 1 + 0.114 * img.pix i j 0)⟩
  else .error "cvtColor: invalid number of channels"

/-- Model of `cv2.cvtColor(·, COLOR_GRAY2BGR)` on a 2-D array: replicate
the single channel three times. -/
def gray2bgr (img : NDImg) : NDImg :=
  ⟨[img.h, img.w, 3], .uint8, fun i j _ => img.pix i j 0⟩

/-- Model of `cv2.cvtColor(·, COLOR_BGR2YUV)` for 8-bit images:
`Y = 0.299 R + 0.587 G + 0.114 B`, `U = 0.492 (B - Y) + 128`,
`V = 0.877 (R - Y) + 128`, rounded and saturated; requires a 3-channel
3-D input. -/
def bgr2yuv (img : NDImg) : Except String NDImg :=
  if img.shape.length = 3 ∧ img.shape.getD 2 0 = 3 then
    .ok ⟨img.shape, .uint8, fun i j k =>
      let b := img.pix i j 0
      let g := img.pix i j 1
      let r := img.pix i j 2
      let y := 0.299 * r + 0.587 * g + 0.114 * b
      sat8Q (if k = 0 then y
             else if k = 1 then (b - y) * 0.492 + 128
             else (r - y) * 0.877 + 128)⟩
  else .error "cvtColor: invalid number of channels"

/-- Model of `cv2.cvtColor(·, COLOR_YUV2BGR)` for 8-bit images (inverse
of the transform above), rounded and saturated; requires a 3-channel
3-D input. -/
def yuv2bgr (img : NDImg) : Except String NDImg :=
  if img.shape.length = 3 ∧ img.shape.getD 2 0 = 3 then
    .ok ⟨img.shape, .uint8, fun i j k =>
      let y := img.pix i j 0
      let u := img.pix i j 1
      let v := img.pix i j 2
      sat8Q (if k = 0 then y + 2.032 * (u - 128)
             else if k = 1 then y - 0.395 * (u - 128) - 0.581 * (v - 128)
             else y + 1.140 * (v - 128))⟩
  else .error "cvtColor: invalid number of channels"

/-- The CIE forward companding function of the LAB conversion. -/
noncomputable def labF (t : ℝ) : ℝ :=
  if 216 / 24389 < t then t ^ ((1 : ℝ) / 3) else (841 / 108) * t + 4 / 29

/-- Model of `cv2.cvtColor(·, COLOR_BGR2LAB)` for 8-bit images: the
standard D65 XYZ matrix followed by the CIE LAB formulas, with the L
channel rescaled to `[0, 255]` and the a/b channels offset by 128
(real-formula model of OpenCV's fixed-point implementation; no claim
below depends on these pixel values); requires a 3-channel 3-D input. -/
noncomputable def bgr2lab (img : NDImg) : Except String NDImg :=
  if img.shape.length = 3 ∧ img.shape.getD 2 0 = 3 then
    .ok ⟨img.shape, .uint8, fun i j k =>
      let b := (img.pix i j 0 : ℝ) / 255
      let g := (img.pix i j 1 : ℝ) / 255
      let r := (img.pix i j 2 : ℝ) / 255
      let fx := labF ((0.412453 * r + 0.357580 * g + 0.180423 * b) / 0.950456)
      let fy := labF (0.212671 * r + 0.715160 * g + 0.072169 * b)
      let fz := labF ((0.019334 * r + 0.119193 * g + 0.950227 * b) / 1.088754)
      sat8R (if k = 0 then (116 * fy - 16) * 255 / 100
             else if k = 1 then 500 * (fx - fy) + 128
             else 200 * (fy - fz) + 128)⟩
  else .error "cvtColor: invalid number of channels"

/-- The CIE inverse companding function of the LAB conversion. -/
noncomputable def labFinv (t : ℝ) : ℝ :=
  if 6 / 29 < t then t ^ (3 : ℕ) else (108 / 841) * (t - 4 / 29)

/-- Model of `cv2.cvtColor(·, COLOR_LAB2BGR)` for 8-bit images (inverse
of the transform above; real-formula model, values unexamined by the
claims); requires a 3-channel 3-D input. -/
noncomputable def lab2bgr (img : NDImg) : Except String NDImg :=
  if img.shape.length = 3 ∧ img.shape.getD 2 0 = 3 then
    .ok ⟨img.shape, .uint8, fun i j k =>
      let fy := ((img.pix i j 0 : ℝ) * 100 / 255 + 16) / 116
      let fx := fy + ((img.pix i j 1 : ℝ) - 128) / 500
      let fz := fy - ((img.pix i j 2 : ℝ) - 128) / 200
      let X := 0.950456 * labFinv fx
      let Y := labFinv fy
      let Z := 1.088754 * labFinv fz
      sat8R (255 * (if k = 0 then 0.055648 * X - 0.204043 * Y + 1.057311 * Z
                    else if k = 1 then -0.969256 * X + 1.875992 * Y + 0.041556 * Z
                    else 3.240479 * X - 1.537150 * Y - 0.498535 * Z))⟩
  else .error "cvtColor: invalid number of channels"

/-- Number of pixels of a channel holding exactly the 8-bit value `b`
(one histogram bin). -/
def histCount (h w : ℕ) (f : ℕ → ℕ → ℚ) (b : ℕ) : ℕ :=
  ((Finset.range h ×ˢ Finset.range w).filter fun p => f p.1 p.2 = (b : ℚ)).card

/-- Model of `cv2.equalizeHist` on an 8-bit channel: map value `v` to
`round(255 * cdf(v) / (h*w))` (OpenCV additionally ignores the bins
below the first nonzero one; modelled without that refinement — no claim
depends on these pixel values). -/
def equalizeHistLut (h w : ℕ) (f : ℕ → ℕ → ℚ) (x : ℚ) : ℚ :=
  let v : ℕ := (max 0 (min 255 (intTrunc x))).toNat
  let cdf : ℕ := ∑ b ∈ Finset.range (v + 1), histCount h w f b
  sat8Q (255 * (cdf : ℚ) / ((h : ℚ) * w))

/-- Model of `cv2.createCLAHE(clip_limit, tile_grid).apply` on an 8-bit
channel: contrast-limited histogram equalisation — the histogram is
clipped at `clip_limit` times the uniform bin load, the clipped excess
is redistributed uniformly, and the pixel is mapped through the
resulting cdf.  OpenCV's per-tile decomposition with bilinear LUT
interpolation is modelled at global-histogram granularity; every claim
below depends only on shape preservation and totality of this
operator. -/
def claheLut (clip : ℚ) (_tiles : ℕ × ℕ) (h w : ℕ) (f : ℕ → ℕ → ℚ) (x : ℚ) : ℚ :=
  let total : ℕ := h * w
  let limit : ℤ := max 1 ⌈clip * total / 256⌉
  let binv : ℕ → ℤ := fun b => min (histCount h w f b : ℤ) limit
  let excess : ℚ := (total : ℚ) - ((∑ b ∈ Finset.range 256, binv b : ℤ) : ℚ)
  let v : ℕ := (max 0 (min 255 (intTrunc x))).toNat
  let cdf : ℚ := ((∑ b ∈ Finset.range (v + 1), binv b : ℤ) : ℚ) + ((v : ℚ) + 1) * excess / 256
  sat8Q (255 * cdf / (total : ℚ))

/-- `apply_clahe` of `src/utils/preprocessing.py`: convert to LAB, apply
CLAHE to the L channel, convert back. -/
noncomputable def apply_clahe (image : NDImg) (clip_limit : ℚ) (tile : ℕ × ℕ) :
    Except String NDImg := do
  let lab ← bgr2lab image
  let lab2 := setChannel lab 0 fun i j =>
    claheLut clip_limit tile lab.h lab.w (fun a b => lab.pix a b 0) (lab.pix i j 0)
  lab2bgr lab2

/-- `apply_white_balance` of `src/utils/preprocessing.py` (Gray-World):
scale each of the three channels by `avg_gray / avg_channel` (skipping
channels with nonpositive mean), clip to `[0, 255]` and truncate back to
uint8.  The channel indexing `img[:, :, 2]` raises `IndexError` unless
the array is 3-D with at least 3 channels. -/
def apply_white_balance (image : NDImg) : Except String NDImg :=
  if image.shape.length = 3 ∧ 3 ≤ image.shape.getD 2 0 then
    let avg_b := channelMean image 0
    let avg_g := channelMean image 1
    let avg_r := channelMean image 2
    let avg_gray := (avg_b + avg_g + avg_r) / 3
    let avgOf : ℕ → ℚ := fun k => if k = 0 then avg_b else if k = 1 then avg_g else avg_r
    .ok ⟨image.shape, .uint8, fun i j k =>
      u8clipTrunc (if k < 3 ∧ 0 < avgOf k then image.pix i j k * (avg_gray / avgOf k)
                   else image.pix i j k)⟩
  else .error "IndexError: index 2 is out of bounds"

/-- `apply_gamma_correction` of `src/utils/preprocessing.py`: the
256-entry lookup table `((i/255) ** (1/gamma)) * 255` truncated to
uint8, applied to each (8-bit) pixel value. -/
noncomputable def apply_gamma_correction (image : NDImg) (gamma : ℚ) : NDImg :=
  ⟨image.shape, .uint8, fun i j k =>
    ((⌊(((image.pix i j k : ℝ) / 255) ^ ((1 : ℝ) / (gamma : ℝ))) * 255⌋ : ℤ) : ℚ)⟩

/-- `enhance_contrast_adaptive` of `src/utils/preprocessing.py`:
dispatch on the method string; any unrecognised method returns the input
unchanged. -/
noncomputable def enhance_contrast_adaptive (image : NDImg) (method : String) :
    Except String NDImg :=
  if method = "clahe" then apply_clahe image 2 (8, 8)
  else if method = "gamma" then do
    let gray ← bgr2gray image
    let mean_brightness := meanHW gray.h gray.w (fun i j => gray.pix i j 0) / 255
    let gamma := max (1/2) (min 2 (1 / (mean_brightness + 1/10)))
    pure (apply_gamma_correction image gamma)
  else if method = "histogram" then do
    let yuv ← bgr2yuv image
    let eq := setChannel yuv 0 fun i j =>
      equalizeHistLut yuv.h yuv.w (fun a b => yuv.pix a b 0) (yuv.pix i j 0)
    yuv2bgr eq
  else .ok image

/-- Truncation-then-wrap conversion numpy performs when a float field is
assigned into a uint8 array slice (C cast semantics, modelled as
truncation followed by reduction mod 256; values unexamined by the
claims). -/
def wrapU8 (x : ℚ) : ℚ := ((intTrunc x % 256 : ℤ) : ℚ)

/-- `apply_color_correction` of `src/utils/preprocessing.py`: in LAB,
shift the a and b channels toward neutral 128 by half their mean
deviation, then convert back. -/
noncomputable def apply_color_correction (image : NDImg) : Except String NDImg := do
  let lab ← bgr2lab image
  let avg_a := channelMean lab 1
  let avg_b2 := channelMean lab 2
  let shifted : NDImg := ⟨lab.shape, lab.dtype, fun i j k =>
    if k = 1 then wrapU8 (lab.pix i j 1 - (avg_a - 128) * (1/2))
    else if k = 2 then wrapU8 (lab.pix i j 2 - (avg_b2 - 128) * (1/2))
    else lab.pix i j k⟩
  lab2bgr shifted

/-- `apply_hdr_tone_mapping` of `src/utils/preprocessing.py`: scale to
`[0, 1]`, Reinhard map `x / (1 + x)`, power `1 / (intensity + 0.1)`,
rescale and truncate to uint8. -/
noncomputable def apply_hdr_tone_mapping (image : NDImg) (intensity : ℚ) : NDImg :=
  ⟨image.shape, .uint8, fun i j k =>
    let x : ℝ := (image.pix i j k : ℝ) / 255
    let y : ℝ := x / (1 + x)
    ((⌊(y ^ ((1 : ℝ) / ((intensity : ℝ) + 1/10))) * 255⌋ : ℤ) : ℚ)⟩

/-- The disk of neighbourhood offsets of `cv2.bilateralFilter` with
radius `r` (offsets at euclidean distance at most `r`). -/
def diskK (r : ℕ) : Finset (ℤ × ℤ) :=
  (Finset.Icc (-(r : ℤ)) r ×ˢ Finset.Icc (-(r : ℤ)) r).filter fun p =>
    p.1 ^ 2 + p.2 ^ 2 ≤ (r : ℤ) ^ 2

/-- Neighbour coordinates sampled by the bilateral filter at centre
`(i, j)` and offset `p`, with `BORDER_REFLECT_101`. -/
def bilatNbr (img : NDImg) (i j : ℕ) (p : ℤ × ℤ) : ℕ × ℕ :=
  (reflect101 img.h ((i : ℤ) + p.1), reflect101 img.w ((j : ℤ) + p.2))

/-- Colour distance of the bilateral filter: sum of the absolute
channel differences between the neighbour and the centre pixel. -/
def bilatColorDist (img : NDImg) (i j : ℕ) (p : ℤ × ℤ) : ℚ :=
  ∑ c ∈ Finset.range img.cEff,
    |img.pix (bilatNbr img i j p).1 (bilatNbr img i j p).2 c - img.pix i j c|

/-- Bilateral-filter weight of a neighbour:
`exp(-dist²/(2 σ_space²) - Δ²/(2 σ_color²))`. -/
noncomputable def bilatWt (img : NDImg) (sigmaColor sigmaSpace : ℚ) (i j : ℕ)
    (p : ℤ × ℤ) : ℝ :=
  Real.exp (-(((p.1 ^ 2 + p.2 ^ 2 : ℤ) : ℝ)) / (2 * (sigmaSpace : ℝ) ^ 2)
            - (bilatColorDist img i j p : ℝ) ^ 2 / (2 * (sigmaColor : ℝ) ^ 2))

/-- Model of `cv2.bilateralFilter` on 8-bit images: for each pixel, the
weight-normalised average of the disk of radius `d/2` around it, rounded
and saturated to uint8. -/
noncomputable def bilateralFilter (img : NDImg) (d : ℕ) (sigmaColor sigmaSpace : ℚ) : NDImg :=
  ⟨img.shape, .uint8, fun i j k =>
    sat8R ((∑ p ∈ diskK (d / 2), bilatWt img sigmaColor sigmaSpace i j p
              * (img.pix (bilatNbr img i j p).1 (bilatNbr img i j p).2 k : ℝ))
           / (∑ p ∈ diskK (d / 2), bilatWt img sigmaColor sigmaSpace i j p))⟩

/-- `reduce_jpeg_artifacts` of `src/utils/preprocessing.py`:
nonpositive strength is the identity; otherwise the bilateral filter is
applied with strength-scaled parameters and its output returned
directly (the function performs no blending with the original). -/
noncomputable def reduce_jpeg_artifacts (image : NDImg) (strength : ℚ) : NDImg :=
  if strength ≤ 0 then image
  else
    let d : ℕ := max 5 (intTrunc (15 * strength)).toNat
    let sigma_color : ℚ := max 10 ((intTrunc (100 * strength) : ℤ) : ℚ)
    let sigma_space : ℚ := max 10 ((intTrunc (100 * strength) : ℤ) : ℚ)
    bilateralFilter image d sigma_color sigma_space

/-- `apply_bilateral_denoise` of `src/utils/postprocessing.py`:
nonpositive strength is the identity; otherwise a bilateral filter with
strength-scaled parameters. -/
noncomputable def apply_bilateral_denoise (image : NDImg) (strength : ℚ) : NDImg :=
  if strength ≤ 0 then image
  else
    let d : ℕ := max 5 (intTrunc (15 * strength)).toNat
    let sigma_color : ℚ := max 10 ((intTrunc (75 * strength) : ℤ) : ℚ)
    let sigma_space : ℚ := max 10 ((intTrunc (75 * strength) : ℤ) : ℚ)
    bilateralFilter image d sigma_color sigma_space

/-- Model of `cv2.addWeighted(src1, alpha, src2, beta, 0)` on 8-bit
images: the per-pixel weighted sum, rounded and saturated. -/
def cv2addWeighted (src1 : NDImg) (alpha : ℚ) (src2 : NDImg) (beta : ℚ) : NDImg :=
  ⟨src1.shape, .uint8, fun i j k =>
    sat8Q (src1.pix i j k * alpha + src2.pix i j k * beta)⟩

/-- The 3×3 unsharp-mask kernel of `apply_sharpening`, scaled by the
strength. -/
def sharpKernel (s : ℚ) (a b : ℤ) : ℚ := (if a = 0 ∧ b = 0 then 9 else -1) * s

/-- Model of `cv2.filter2D(·, -1, kernel)` for a 3×3 kernel on 8-bit
images: correlation with `BORDER_REFLECT_101`, rounded and saturated. -/
def filter2D3x3 (img : NDImg) (ker : ℤ → ℤ → ℚ) : NDImg :=
  ⟨img.shape, .uint8, fun i j k =>
    sat8Q (∑ a ∈ Finset.Icc (-1 : ℤ) 1, ∑ b ∈ Finset.Icc (-1 : ℤ) 1,
      ker a b * img.pix (reflect101 img.h ((i : ℤ) + a)) (reflect101 img.w ((j : ℤ) + b)) k)⟩

/-- `apply_sharpening` of `src/utils/postprocessing.py`: nonpositive
strength is the identity; otherwise the strength-scaled unsharp kernel
is applied and the result blended with the original by
`addWeighted(image, 1-s, sharpened, s, 0)`. -/
def apply_sharpening (image : NDImg) (strength : ℚ) : NDImg :=
  if strength ≤ 0 then image
  else cv2addWeighted image (1 - strength) (filter2D3x3 image (sharpKernel strength)) strength

/-- The fixed 3-tap kernel OpenCV uses for `GaussianBlur` with kernel
size 3 and sigma 0. -/
def g3w (a : ℕ) : ℚ := if a = 1 then 1/2 else 1/4

/-- Model of `cv2.GaussianBlur(·, (3, 3), 0)` on an 8-bit channel. -/
def gauss3u8 (h w : ℕ) (f : ℕ → ℕ → ℚ) (i j : ℕ) : ℚ :=
  sat8Q (∑ a ∈ Finset.range 3, ∑ b ∈ Finset.range 3,
    g3w a * g3w b * f (reflect101 h ((i : ℤ) + a - 1)) (reflect101 w ((j : ℤ) + b - 1)))

/-- Model of `cv2.Laplacian(·, CV_64F)`: the 4-neighbour Laplacian with
`BORDER_REFLECT_101`, exact (float64 output, no rounding). -/
def lap3 (h w : ℕ) (f : ℕ → ℕ → ℚ) (i j : ℕ) : ℚ :=
  f (reflect101 h ((i : ℤ) - 1)) (reflect101 w j) + f (reflect101 h ((i : ℤ) + 1)) (reflect101 w j)
    + f (reflect101 h i) (reflect101 w ((j : ℤ) - 1)) + f (reflect101 h i) (reflect101 w ((j : ℤ) + 1))
    - 4 * f (reflect101 h i) (reflect101 w j)

/-- `apply_adaptive_sharpening` of `src/utils/postprocessing.py`:
estimate detail as the variance of the Laplacian of a lightly blurred
grayscale version, scale the base strength by `1 / (var/100 + 0.1)`,
clip to `[0.1, 2.0]`, and sharpen with the adapted strength. -/
def apply_adaptive_sharpening (image : NDImg) (strength : ℚ) : Except String NDImg := do
  let gray ← bgr2gray image
  let blur : ℕ → ℕ → ℚ := gauss3u8 gray.h gray.w fun i j => gray.pix i j 0
  let variance := varHW gray.h gray.w (lap3 gray.h gray.w blur)
  let adaptive := max (1/10) (min 2 (strength * (1 / (variance / 100 + 1/10))))
  pure (apply_sharpening image adaptive)

/-- Offsets of a `k × k` structuring element anchored at its centre. -/
def morphOffsets (ksz : ℕ) : List (ℤ × ℤ) :=
  (List.range ksz).flatMap fun a => (List.range ksz).map fun b =>
    ((a : ℤ) - (ksz / 2 : ℕ), (b : ℤ) - (ksz / 2 : ℕ))

/-- Model of `cv2.erode` on one channel: minimum over the structuring
element (the default border value is +∞ for erosion, so out-of-bounds
samples never contribute; clamping the indices is equivalent). -/
def erodeCh (h w ksz : ℕ) (f : ℕ → ℕ → ℚ) (i j : ℕ) : ℚ :=
  (((morphOffsets ksz).map fun p =>
      f (clampIdx h ((i : ℤ) + p.1)) (clampIdx w ((j : ℤ) + p.2))).foldl min (f i j))

/-- Model of `cv2.dilate` on one channel: maximum over the structuring
element. -/
def dilateCh (h w ksz : ℕ) (f : ℕ → ℕ → ℚ) (i j : ℕ) : ℚ :=
  (((morphOffsets ksz).map fun p =>
      f (clampIdx h ((i : ℤ) + p.1)) (clampIdx w ((j : ℤ) + p.2))).foldl max (f i j))

/-- Morphological opening on one channel: erosion then dilation. -/
def openCh (h w ksz : ℕ) (f : ℕ → ℕ → ℚ) : ℕ → ℕ → ℚ :=
  dilateCh h w ksz (erodeCh h w ksz f)

/-- Morphological closing on one channel: dilation then erosion. -/
def closeCh (h w ksz : ℕ) (f : ℕ → ℕ → ℚ) : ℕ → ℕ → ℚ :=
  erodeCh h w ksz (dilateCh h w ksz f)

/-- `apply_morphological_operations` of `src/utils/postprocessing.py`:
opening and closing are applied to channels 0–2 separately (the loop
`for i in range(3)` indexes three channels, raising `IndexError` on
arrays without them); erosion and dilation are applied to the whole
array; any unrecognised operation returns the input unchanged. -/
def apply_morphological_operations (image : NDImg) (operation : String) (kernel_size : ℕ) :
    Except String NDImg :=
  if operation = "opening" then
    if image.shape.length = 3 ∧ 3 ≤ image.shape.getD 2 0 then
      .ok ⟨image.shape, image.dtype, fun i j k =>
        if k < 3 then openCh image.h image.w kernel_size (fun a b => image.pix a b k) i j
        else image.pix i j k⟩
    else .error "IndexError: channel index out of bounds"
  else if operation = "closing" then
    if image.shape.length = 3 ∧ 3 ≤ image.shape.getD 2 0 then
      .ok ⟨image.shape, image.dtype, fun i j k =>
        if k < 3 then closeCh image.h image.w kernel_size (fun a b => image.pix a b k) i j
        else image.pix i j k⟩
    else .error "IndexError: channel index out of bounds"
  else if operation = "erosion" then
    .ok ⟨image.shape, image.dtype, fun i j k =>
      erodeCh image.h image.w kernel_size (fun a b => image.pix a b k) i j⟩
  else if operation = "dilation" then
    .ok ⟨image.shape, image.dtype, fun i j k =>
      dilateCh image.h image.w kernel_size (fun a b => image.pix a b k) i j⟩
  else .ok image

/-- Sorted percentile with numpy's linear interpolation
(`np.percentile(·, q)`). -/
def percentileQ (l : List ℚ) (q : ℚ) : ℚ :=
  let s := l.insertionSort fun a b => a ≤ b
  let n := s.length
  if n = 0 then 0
  else
    let rank : ℚ := q / 100 * ((n : ℚ) - 1)
    let lo : ℕ := (max 0 ⌊rank⌋).toNat
    let frac : ℚ := rank - (⌊rank⌋ : ℚ)
    s.getD lo 0 + frac * (s.getD (min (lo + 1) (n - 1)) 0 - s.getD lo 0)

/-- Minimum of a list of values (for `cv2.normalize` NORM_MINMAX). -/
def listMin (l : List ℚ) : ℚ := l.foldl min (l.getD 0 0)

/-- Maximum of a list of values. -/
def listMax (l : List ℚ) : ℚ := l.foldl max (l.getD 0 0)

/-- `final_contrast_adjustment` of `src/utils/postprocessing.py`:
"auto" stretches the YUV luminance between its 1st and 99th percentiles
(a constant channel makes the stretch divide by zero, which numpy
reports as a non-raising warning; the quotient is modelled by rational
division-by-zero = 0); "stretch" min-max normalises the luminance; any
other method returns the input unchanged. -/
def final_contrast_adjustment (image : NDImg) (method : String) : Except String NDImg :=
  if method = "auto" then do
    let yuv ← bgr2yuv image
    let yvals := listHW yuv.h yuv.w fun i j => yuv.pix i j 0
    let p1 := percentileQ yvals 1
    let p99 := percentileQ yvals 99
    let stretched := setChannel yuv 0 fun i j =>
      u8clipTrunc ((yuv.pix i j 0 - p1) / (p99 - p1) * 255)
    yuv2bgr stretched
  else if method = "stretch" then do
    let yuv ← bgr2yuv image
    let yvals := listHW yuv.h yuv.w fun i j => yuv.pix i j 0
    let mn := listMin yvals
    let mx := listMax yvals
    let stretched := setChannel yuv 0 fun i j =>
      sat8Q ((yuv.pix i j 0 - mn) * 255 / (mx - mn))
    yuv2bgr stretched
  else .ok image

/-- `apply_edge_enhancement` of `src/utils/postprocessing.py`: Laplacian
edge map of the grayscale version (`convertScaleAbs` = rounded absolute
value), replicated to three channels and additively blended by
`addWeighted(image, 1.0, edges, strength, 0)`. -/
def apply_edge_enhancement (image : NDImg) (strength : ℚ) : Except String NDImg := do
  let gray ← bgr2gray image
  let lap : NDImg := ⟨[gray.h, gray.w], .uint8, fun i j _ =>
    sat8Q |lap3 gray.h gray.w (fun a b => gray.pix a b 0) i j|⟩
  pure (cv2addWeighted image 1 (gray2bgr lap) strength)

/-- `apply_intensity_transformation` of `src/utils/postprocessing.py`:
add the brightness, multiply by the contrast, then — only when
`gamma ≠ 1` — apply `(x/255) ** gamma * 255` (the exponent is `gamma`
itself), and finally clip to `[0, 255]` and truncate to uint8. -/
noncomputable def apply_intensity_transformation (image : NDImg)
    (gamma contrast brightness : ℚ) : NDImg :=
  ⟨image.shape, .uint8, fun i j k =>
    let x2 : ℚ := (image.pix i j k + brightness) * contrast
    u8clipTruncR (if gamma = 1 then (x2 : ℝ) else ((x2 : ℝ) / 255) ^ (gamma : ℝ) * 255)⟩

/-- The intensity transform as the specification words it:
`out = clamp(((in + brightness) * contrast / 255) ** (1/gamma) * 255, 0, 255)`
— note the exponent `1/gamma` (followed by the same uint8 conversion as
the code, for comparability). -/
noncomputable def claimedIntensity (image : NDImg) (gamma contrast brightness : ℚ) : NDImg :=
  ⟨image.shape, .uint8, fun i j k =>
    u8clipTruncR (((((image.pix i j k + brightness) * contrast : ℚ) : ℝ) / 255)
      ^ ((1 : ℝ) / (gamma : ℝ)) * 255)⟩

/-- The intensity transform formula amended to what the code computes:
the same pipeline but with exponent `gamma` applied unconditionally
(`x ** 1 = x`, so the `gamma = 1` shortcut of the code coincides). -/
noncomputable def amendedIntensity (image : NDImg) (gamma contrast brightness : ℚ) : NDImg :=
  ⟨image.shape, .uint8, fun i j k =>
    u8clipTruncR (((((image.pix i j k + brightness) * contrast : ℚ) : ℝ) / 255)
      ^ (gamma : ℝ) * 255)⟩

/-- Median of a 3×3 neighbourhood (element 4 of the sorted 9 samples). -/
def median9 (l : List ℚ) : ℚ := (l.insertionSort fun a b => a ≤ b).getD (l.length / 2) 0

/-- Model of `cv2.medianBlur(·, 3)`: per-channel median of the 3×3
neighbourhood with `BORDER_REPLICATE`. -/
def medianBlur3 (img : NDImg) : NDImg :=
  ⟨img.shape, .uint8, fun i j k =>
    median9 ((morphOffsets 3).map fun p =>
      img.pix (clampIdx img.h ((i : ℤ) + p.1)) (clampIdx img.w ((j : ℤ) + p.2)) k)⟩

/-- `apply_compression_artifact_reduction` of
`src/utils/postprocessing.py`: nonpositive strength is the identity;
otherwise a 3×3 median filter followed by `bilateralFilter(·, 9, 75,
75)`, blended with the original by `addWeighted(image, 1-s, filtered, s,
0)`. -/
noncomputable def apply_compression_artifact_reduction (image : NDImg) (strength : ℚ) : NDImg :=
  if strength ≤ 0 then image
  else cv2addWeighted image (1 - strength) (bilateralFilter (medianBlur3 image) 9 75 75) strength

/-- The tunable parameters read from the `params` dict by
`apply_restoration` and `apply_enhancement` (`params.get` defaults:
denoise 0.3, contrast_method "clahe", compression_reduction 0.5,
sharpness 0.5 in restoration / 0.3 in enhancement, edge_enhancement 0.2,
hdr_intensity 0.5). -/
structure ProcParams where
  denoise : ℚ
  contrast_method : String
  compression_reduction : ℚ
  sharpness : ℚ
  edge_strength : ℚ
  hdr_intensity : ℚ

/-- `apply_restoration` of `src/pipeline.py`: the fixed restoration
chain — colour correction, white balance, bilateral denoise,
morphological opening, adaptive contrast, compression-artifact
reduction, adaptive sharpening, edge enhancement, final contrast
adjustment (default method "auto"). -/
noncomputable def apply_restoration (image : NDImg) (params : ProcParams) :
    Except String NDImg := do
  let i1 ← apply_color_correction image
  let i2 ← apply_white_balance i1
  let i3 := apply_bilateral_denoise i2 params.denoise
  let i4 ← apply_morphological_operations i3 "opening" 3
  let i5 ← enhance_contrast_adaptive i4 params.contrast_method
  let i6 := apply_compression_artifact_reduction i5 params.compression_reduction
  let i7 ← apply_adaptive_sharpening i6 params.sharpness
  let i8 ← apply_edge_enhancement i7 params.edge_strength
  final_contrast_adjustment i8 "auto"

/-- A loaded SRCNN model instance: a map from the scaled RGB input
tensor to the output tensor (the network itself is external to the
repository; the pipeline only forwards through it). -/
def SRModel : Type := NDImg → NDImg

/-- A loaded Real-ESRGAN upsampler instance: `enhance(rgb, outscale)`. -/
def UpModel : Type := NDImg → ℕ → NDImg

/-- Swap the first and third channels (`cv2.cvtColor` BGR↔RGB). -/
def swapBR (img : NDImg) : NDImg :=
  ⟨img.shape, img.dtype, fun i j k => img.pix i j (if k = 0 then 2 else if k = 2 then 0 else k)⟩

/-- `apply_srcnn_enhancement` of `src/pipeline.py`, parametrised by the
result of the lazy model loader `load_srcnn_model()`: when the loader
returned no model the image is upscaled with
`cv2.resize(·, (w*s, h*s), INTER_CUBIC)`; when a model is present the
image is converted to a scaled RGB tensor, forwarded, clamped to
`[0, 1]`, rescaled and converted back. -/
def apply_srcnn_enhancement (model : Option SRModel) (image : NDImg) (scale_factor : ℕ) :
    NDImg :=
  match model with
  | none => cv2resizeCubic image (image.w * scale_factor) (image.h * scale_factor)
  | some m =>
    let rgb := swapBR image
    let tin : NDImg := ⟨rgb.shape, .float32, fun i j k => rgb.pix i j k / 255⟩
    let out := m tin
    swapBR ⟨out.shape, .uint8, fun i j k =>
      ((⌊max 0 (min 1 (out.pix i j k)) * 255⌋ : ℤ) : ℚ)⟩

/-- `apply_realesrgan_enhancement` of `src/pipeline.py`, parametrised by
the result of the lazy loader `load_realesrgan_model()`: when the loader
returned no upsampler the image is upscaled with
`cv2.resize(·, (w*s, h*s), INTER_CUBIC)`; otherwise
`upsampler.enhance(rgb, outscale)` is forwarded. -/
def apply_realesrgan_enhancement (upsampler : Option UpModel) (image : NDImg)
    (scale_factor : ℕ) : NDImg :=
  match upsampler with
  | none => cv2resizeCubic image (image.w * scale_factor) (image.h * scale_factor)
  | some u => swapBR (u (swapBR image) scale_factor)

/-- `apply_enhancement` of `src/pipeline.py`: colour correction, white
balance, CLAHE contrast, then the selected super-resolution branch
(SRCNN, Real-ESRGAN, or the default `cv2.resize` bicubic upscale),
followed by adaptive sharpening and HDR tone mapping. -/
noncomputable def apply_enhancement (srcnnModel : Option SRModel) (esrganModel : Option UpModel)
    (image : NDImg) (scale_factor : ℕ) (method : String) (params : ProcParams) :
    Except String NDImg := do
  let i1 ← apply_color_correction image
  let i2 ← apply_white_balance i1
  let i3 ← enhance_contrast_adaptive i2 "clahe"
  let i4 :=
    if method = "srcnn" then apply_srcnn_enhancement srcnnModel i3 scale_factor
    else if method = "realesrgan" then apply_realesrgan_enhancement esrganModel i3 scale_factor
    else cv2resizeCubic i3 (i3.w * scale_factor) (i3.h * scale_factor)
  let i5 ← apply_adaptive_sharpening i4 params.sharpness
  pure (apply_hdr_tone_mapping i5 params.hdr_intensity)

/-- `ndarray.max()` over the in-bounds elements (numpy raises on a
zero-size array; `normalize_image` models that raise separately, so the
default value of this total function is never observed). -/
def maxPix (img : NDImg) : ℚ :=
  (((Finset.range img.h ×ˢ Finset.range img.w ×ˢ Finset.range img.cEff).image
    fun p => img.pix p.1 p.2.1 p.2.2).max).unbot' 0

/-- Reinterpret the array with a new dtype tag (`astype` between exactly
representable numeric types keeps the values). -/
def astypeDt (dt : DType) (img : NDImg) : NDImg := ⟨img.shape, dt, img.pix⟩

/-- `normalize_image` of `src/utils/imagen.py`: uint8 arrays are
returned unchanged; any other dtype is converted to float (exact),
divided by 255 when the maximum exceeds 1, clipped to `[0, 1]` and
rescaled to truncated uint8.  `image.max()` on a zero-size non-uint8
array raises `ValueError` (numpy's empty reduction). -/
def normalize_image (image : NDImg) : Except String NDImg :=
  if image.dtype = .uint8 then .ok image
  else
    let img1 := if image.dtype ≠ .float32 ∧ image.dtype ≠ .float64
                then astypeDt .float32 image else image
    if img1.size = 0 then .error "zero-size array to reduction operation maximum"
    else
      let img2 := if 1 < maxPix img1
                  then ⟨img1.shape, img1.dtype, fun i j k => img1.pix i j k / 255⟩
                  else img1
      .ok ⟨img2.shape, .uint8, fun i j k =>
        ((⌊max 0 (min 1 (img2.pix i j k)) * 255⌋ : ℤ) : ℚ)⟩

/-- A 1×1 grayscale uint8 image with value 0. -/
def imgA : NDImg := ⟨[1, 1], .uint8, fun _ _ _ => 0⟩

/-- A 1×1 grayscale uint8 image with value 10. -/
def imgB : NDImg := ⟨[1, 1], .uint8, fun _ _ _ => 10⟩

/-- A 1×2 grayscale uint8 image with row values 0, 8 (the bilateral
blend counterexample input). -/
def imgRow : NDImg := ⟨[1, 2], .uint8, fun _ j _ => if j = 1 then 8 else 0⟩

/-- A 7×7 grayscale uint8 zero image (smallest SSIM-comparable size). -/
def img7 : NDImg := ⟨[7, 7], .uint8, fun _ _ _ => 0⟩

/-- An 8×8 3-channel uint8 zero image. -/
def imgRGB : NDImg := ⟨[8, 8, 3], .uint8, fun _ _ _ => 0⟩

/-- A 5×5 grayscale (2-D) uint8 zero image: accepted by `verify_image`
but not 3-channel. -/
def imgGray5 : NDImg := ⟨[5, 5], .uint8, fun _ _ _ => 0⟩

/-- A 1×1×1 uint8 image with value 64 (intensity-transform
counterexample input). -/
def img64 : NDImg := ⟨[1, 1, 1], .uint8, fun _ _ _ => 64⟩

/-- A 0×0 float32 array (empty; `normalize_image` raises on it). -/
def imgEmptyF : NDImg := ⟨[0, 0], .float32, fun _ _ _ => 0⟩

/-- A 2×2 float64 array with values 0, 51, 102, 510 (normalisation
witness input: max exceeds 1, one value exceeds 255). -/
def imgF : NDImg :=
  ⟨[2, 2], .float64, fun i j _ => if i = 0 then (if j = 0 then 0 else 51) else
    (if j = 0 then 102 else 510)⟩

/-! ### Helper lemmas about rounding and saturation -/

theorem roundHalfEvenQ_le (x : ℚ) : (roundHalfEvenQ x : ℚ) ≤ x + 1/2 := by
  unfold roundHalfEvenQ
  split
  · push_cast
    have := Int.floor_le (x + 1/2)
    linarith
  · exact Int.floor_le (x + 1/2)

theorem le_roundHalfEvenQ (x : ℚ) : x - 1/2 ≤ (roundHalfEvenQ x : ℚ) := by
  unfold roundHalfEvenQ
  split
  · rename_i hc
    push_cast
    have := hc.1
    linarith
  · have := Int.sub_one_lt_floor (x + 1/2)
    linarith

theorem roundHalfEvenQ_intCast (z : ℤ) : roundHalfEvenQ (z : ℚ) = z := by
  unfold roundHalfEvenQ
  have hf : ⌊(z : ℚ) + 1/2⌋ = z := by
    rw [show ((z : ℚ) + 1/2) = (1/2 : ℚ) + z by ring, Int.floor_add_int]
    norm_num
  simp only [hf]
  split
  · rename_i hc
    exfalso
    have := hc.1
    push_cast at this
    linarith
  · rfl

theorem roundHalfEvenR_le (x : ℝ) : ((roundHalfEvenR x : ℤ) : ℝ) ≤ x + 1/2 := by
  unfold roundHalfEvenR
  split
  · push_cast
    have := Int.floor_le (x + 1/2)
    linarith
  · exact Int.floor_le (x + 1/2)

theorem le_roundHalfEvenR (x : ℝ) : x - 1/2 ≤ ((roundHalfEvenR x : ℤ) : ℝ) := by
  unfold roundHalfEvenR
  split
  · rename_i hc
    push_cast
    have := hc.1
    linarith
  · have := Int.sub_one_lt_floor (x + 1/2)
    linarith

theorem sat8Q_intCast (z : ℤ) (h0 : 0 ≤ z) (h255 : z ≤ 255) : sat8Q ((z : ℤ) : ℚ) = (z : ℚ) := by
  unfold sat8Q
  rw [roundHalfEvenQ_intCast]
  rw [min_eq_right h255, max_eq_right (le_trans h0 (le_refl z))]

theorem sat8R_exists_int (x : ℝ) :
    ∃ z : ℤ, sat8R x = (z : ℚ) ∧ 0 ≤ z ∧ z ≤ 255 := by
  refine ⟨max 0 (min 255 (roundHalfEvenR x)), rfl, le_max_left 0 _, ?_⟩
  exact max_le (by norm_num) (min_le_left 255 _)

theorem sat8Q_exists_int (x : ℚ) :
    ∃ z : ℤ, sat8Q x = (z : ℚ) ∧ 0 ≤ z ∧ z ≤ 255 := by
  refine ⟨max 0 (min 255 (roundHalfEvenQ x)), rfl, le_max_left 0 _, ?_⟩
  exact max_le (by norm_num) (min_le_left 255 _)

/-! ### C2: classical-interpolation fallback of the neural paths -/

/-- C2: for every input image and scale factor, when the model loader
reports no model (as in the shipped deployment), both
`apply_srcnn_enhancement` and `apply_realesrgan_enhancement` return the
classical bicubic-interpolation upscale of the image — they are total
functions here, so no error can be raised — and the result's height and
width are the input's multiplied by the scale factor. -/
theorem c2_model_fallback (image : NDImg) (s : ℕ) :
    apply_srcnn_enhancement none image s
        = cv2resizeCubic image (image.w * s) (image.h * s)
      ∧ apply_realesrgan_enhancement none image s
        = cv2resizeCubic image (image.w * s) (image.h * s)
      ∧ (apply_srcnn_enhancement none image s).h = image.h * s
      ∧ (apply_srcnn_enhancement none image s).w = image.w * s
      ∧ (apply_realesrgan_enhancement none image s).h = image.h * s
      ∧ (apply_realesrgan_enhancement none image s).w = image.w * s := by
  refine ⟨rfl, rfl, ?_, ?_, ?_, ?_⟩ <;>
  · simp only [apply_srcnn_enhancement, apply_realesrgan_enhancement, cv2resizeCubic,
      NDImg.h, NDImg.w]
    split <;> rfl

/-! ### C9: unrecognised method strings are identities -/

/-- C9: for every image, calling `enhance_contrast_adaptive`,
`apply_morphological_operations` or `final_contrast_adjustment` with a
method/operation string outside its recognised set returns the input
image unchanged (wrapped in `ok`: no error is raised). -/
theorem c9_unknown_method_identity (img : NDImg) (cm op fm : String) (ksz : ℕ)
    (hcm : cm ≠ "clahe" ∧ cm ≠ "gamma" ∧ cm ≠ "histogram")
    (hop : op ≠ "opening" ∧ op ≠ "closing" ∧ op ≠ "erosion" ∧ op ≠ "dilation")
    (hfm : fm ≠ "auto" ∧ fm ≠ "stretch") :
    enhance_contrast_adaptive img cm = .ok img
      ∧ apply_morphological_operations img op ksz = .ok img
      ∧ final_contrast_adjustment img fm = .ok img := by
  obtain ⟨h1, h2, h3⟩ := hcm
  obtain ⟨h4, h5, h6, h7⟩ := hop
  obtain ⟨h8, h9⟩ := hfm
  refine ⟨?_, ?_, ?_⟩
  · simp [enhance_contrast_adaptive, h1, h2, h3]
  · simp [apply_morphological_operations, h4, h5, h6, h7]
  · simp [final_contrast_adjustment, h8, h9]

/-- C9 witness: concrete unrecognised strings on a concrete image
("clahe" is listed in `final_contrast_adjustment`'s docstring but not
implemented, so it falls into the identity branch). -/
theorem c9_unknown_method_identity_witness :
    (("sepia" : String) ≠ "clahe" ∧ ("gradient" : String) ≠ "opening"
        ∧ ("clahe" : String) ≠ "auto")
      ∧ (enhance_contrast_adaptive imgA "sepia" = .ok imgA
         ∧ apply_morphological_operations imgA "gradient" 3 = .ok imgA
         ∧ final_contrast_adjustment imgA "clahe" = .ok imgA) :=
  ⟨⟨by decide, by decide, by decide⟩,
   c9_unknown_method_identity imgA "sepia" "gradient" "clahe" 3
     ⟨by decide, by decide, by decide⟩
     ⟨by decide, by decide, by decide, by decide⟩
     ⟨by decide, by decide⟩⟩

/-! ### C1: the low-level metrics never mark anything unavailable -/

theorem mseQ_imgA_imgB : mseQ imgA imgB = 100 := by
  simp [mseQ, elemSum, elemCount, imgA, imgB, NDImg.h, NDImg.w, NDImg.cEff]
  norm_num

/-- C1 counterexample: two same-shape 1×1 images (so the smaller
dimension, 1, is below the minimum comparison window 7) on which
`calculate_psnr` returns an ordinary numeric value — refuting the claim
that the metrics functions mark PSNR/SSIM unavailable in that case. -/
theorem c1_metrics_counterexample :
    min imgA.h imgA.w < 7 ∧ imgA.shape = imgB.shape
      ∧ (calculate_psnr imgA imgB).isValue = true := by
  refine ⟨by decide, rfl, ?_⟩
  have hif : (if imgA.shape = imgB.shape then imgB
              else cv2resizeLinear imgB imgA.w imgA.h) = imgB := if_pos rfl
  simp [calculate_psnr, hif, mseQ_imgA_imgB, PsnrResult.isValue]

/-- C1 amended: the low-level metrics functions of
`src/utils/metrics.py` never produce an unavailable marker — for
same-shape images with nonzero MSE, `calculate_psnr` returns the
ordinary numeric PSNR value even when `min(H, W) < 7` (and on a shape
mismatch it resizes and still computes) — while the app-layer call site
(`app.py`) is the place that marks SSIM unavailable (`None`) whenever
`min(H, W) < 7`. -/
theorem c1_metrics_amended (o p : NDImg) (h7 : min o.h o.w < 7) (hsh : o.shape = p.shape)
    (hm : mseQ o p ≠ 0) :
    app_ssim o p = none ∧ calculate_psnr o p = .val (psnrValue (mseQ o p)) := by
  constructor
  · have hlt : ¬ 7 ≤ min o.h o.w := by omega
    simp [app_ssim, hlt]
  · simp [calculate_psnr, hsh, hm]

/-- C1 amended witness: the 1×1 pair instantiates the amended claim. -/
theorem c1_metrics_amended_witness :
    (min imgA.h imgA.w < 7 ∧ imgA.shape = imgB.shape ∧ mseQ imgA imgB ≠ 0)
      ∧ (app_ssim imgA imgB = none
         ∧ calculate_psnr imgA imgB = .val (psnrValue (mseQ imgA imgB))) :=
  ⟨⟨by decide, rfl, by rw [mseQ_imgA_imgB]; norm_num⟩,
   c1_metrics_amended imgA imgB (by decide) rfl (by rw [mseQ_imgA_imgB]; norm_num)⟩

/-! ### C3: the PSNR formula and its infinity case -/

/-- C3: for every pair of same-shape images, `calculate_psnr` returns
`+infinity` exactly when the mean squared difference is zero and the
numeric value `20·log10(255/sqrt(MSE))` otherwise; in particular
`calculate_psnr X X = +infinity` for every image `X` (the MSE is
modelled exactly over `ℚ` where the code uses float64). -/
theorem c3_psnr_formula (x y : NDImg) (hsh : x.shape = y.shape) :
    (calculate_psnr x y = .inf ↔ mseQ x y = 0)
      ∧ (mseQ x y ≠ 0 → calculate_psnr x y = .val (psnrValue (mseQ x y)))
      ∧ calculate_psnr x x = .inf := by
  have hself : mseQ x x = 0 := by
    simp [mseQ, elemSum]
  refine ⟨?_, fun hm => by simp [calculate_psnr, hsh, hm],
    by simp [calculate_psnr, hself]⟩
  by_cases hm : mseQ x y = 0
  · simp [calculate_psnr, hsh, hm]
  · simp [calculate_psnr, hsh, hm]

/-- C3 witness: the formula theorem instantiated at the concrete 1×1
pair. -/
theorem c3_psnr_formula_witness :
    imgA.shape = imgB.shape
      ∧ ((calculate_psnr imgA imgB = .inf ↔ mseQ imgA imgB = 0)
         ∧ (mseQ imgA imgB ≠ 0 →
              calculate_psnr imgA imgB = .val (psnrValue (mseQ imgA imgB)))
         ∧ calculate_psnr imgA imgA = .inf) :=
  ⟨rfl, c3_psnr_formula imgA imgB rfl⟩

/-! ### C6: the intensity transform applies gamma, not 1/gamma -/

/-- C6 counterexample: on the 1×1×1 image with value 64, with gamma 2,
contrast 1, brightness 0, the code computes `(64/255)^2·255`, truncated
to 16, whereas the claimed formula `(64/255)^(1/2)·255` truncates to
127 — so the two transforms differ. -/
theorem c6_intensity_counterexample :
    (apply_intensity_transformation img64 2 1 0).pix 0 0 0 = 16
      ∧ (claimedIntensity img64 2 1 0).pix 0 0 0 = 127
      ∧ apply_intensity_transformation img64 2 1 0 ≠ claimedIntensity img64 2 1 0 := by
  have hL : (apply_intensity_transformation img64 2 1 0).pix 0 0 0 = 16 := by
    simp only [apply_intensity_transformation, img64]
    norm_num [u8clipTruncR]
  have hR : (claimedIntensity img64 2 1 0).pix 0 0 0 = 127 := by
    simp only [claimedIntensity, img64]
    norm_num [u8clipTruncR]
    rw [← Real.sqrt_eq_rpow]
    have hlo : (127 / 255 : ℝ) ≤ Real.sqrt (64 / 255) := by
      rw [show (127 / 255 : ℝ) = Real.sqrt ((127 / 255) ^ 2) by
            rw [Real.sqrt_sq (by norm_num)]]
      apply Real.sqrt_le_sqrt
      norm_num
    have hhi : Real.sqrt (64 / 255) < 128 / 255 := by
      rw [show (128 / 255 : ℝ) = Real.sqrt ((128 / 255) ^ 2) by
            rw [Real.sqrt_sq (by norm_num)]]
      apply Real.sqrt_lt_sqrt (by norm_num)
      norm_num
    have h1 : min 255 (Real.sqrt (64 / 255) * 255) = Real.sqrt (64 / 255) * 255 := by
      rw [min_eq_right]; nlinarith
    have h2 : max 0 (Real.sqrt (64 / 255) * 255) = Real.sqrt (64 / 255) * 255 := by
      rw [max_eq_right]; nlinarith [Real.sqrt_nonneg (64 / 255 : ℝ)]
    rw [h1, h2]
    have : ⌊Real.sqrt (64 / 255) * 255⌋ = 127 := by
      rw [Int.floor_eq_iff]
      constructor
      · push_cast; nlinarith
      · push_cast; nlinarith
    rw [this]
    norm_num
  refine ⟨hL, hR, fun h => ?_⟩
  have := congrArg (fun im : NDImg => im.pix 0 0 0) h
  simp only at this
  rw [hL, hR] at this
  norm_num at this

/-- C6 amended: for every image and parameters, the intensity transform
computes `out = clamp(((in + brightness) · contrast / 255) ^ γ · 255, 0,
255)` truncated to uint8 — brightness first, then contrast, then the
power with exponent `γ` itself (not `1/γ`); the code's special case
γ = 1 coincides with the formula. -/
theorem c6_intensity_amended (image : NDImg) (g c b : ℚ) :
    apply_intensity_transformation image g c b = amendedIntensity image g c b := by
  unfold apply_intensity_transformation amendedIntensity
  congr 1
  funext i j k
  by_cases hg : g = 1
  · subst hg
    norm_num [Real.rpow_one]
  · simp [hg]

/-! ### C10: normalize_image -/

theorem floorClip01Bounds (v : ℚ) :
    0 ≤ ⌊max 0 (min 1 v) * 255⌋ ∧ ⌊max 0 (min 1 v) * 255⌋ ≤ 255 := by
  constructor
  · apply Int.floor_nonneg.2
    have h0 : (0 : ℚ) ≤ max 0 (min 1 v) := le_max_left 0 _
    nlinarith
  · have h1 : max 0 (min 1 v) * 255 ≤ 255 := by
      have hle : max 0 (min 1 v) ≤ 1 := max_le zero_le_one (min_le_left 1 _)
      nlinarith
    calc ⌊max 0 (min 1 v) * 255⌋ ≤ ⌊(255 : ℚ)⌋ := Int.floor_le_floor h1
      _ = 255 := by norm_num

/-- C10 counterexample: on the empty (0×0) float32 array,
`normalize_image` raises numpy's empty-reduction `ValueError` instead of
returning a uint8 array, refuting the claim for every input array. -/
theorem c10_normalize_counterexample :
    normalize_image imgEmptyF
      = .error "zero-size array to reduction operation maximum" := rfl

/-- C10 amended: `normalize_image` returns every uint8 array unchanged;
on every nonempty array it succeeds with a uint8 array whose values are
integers in [0, 255] (for non-uint8 inputs); and it is idempotent in the
monadic sense (`normalize ∘ normalize = normalize`, errors included —
the raise on empty non-uint8 arrays is the only non-returning case). -/
theorem c10_normalize_amended (image : NDImg) :
    (image.dtype = .uint8 → normalize_image image = .ok image)
      ∧ (image.size ≠ 0 → ∃ out, normalize_image image = .ok out
           ∧ out.dtype = .uint8
           ∧ (image.dtype ≠ .uint8 →
                ∀ i j k, ∃ z : ℤ, out.pix i j k = (z : ℚ) ∧ 0 ≤ z ∧ z ≤ 255))
      ∧ (normalize_image image).bind normalize_image = normalize_image image := by
  refine ⟨fun hu => by simp [normalize_image, hu], ?_, ?_⟩
  · intro hs
    by_cases hu : image.dtype = .uint8
    · exact ⟨image, by simp [normalize_image, hu], hu, fun hcon => absurd hu hcon⟩
    · have hs1 : ¬ (if image.dtype ≠ .float32 ∧ image.dtype ≠ .float64
                  then astypeDt .float32 image else image).size = 0 := by
        split <;> simpa [astypeDt, NDImg.size] using hs
      simp only [normalize_image, if_neg hu, if_neg hs1]
      refine ⟨_, rfl, rfl, fun _ i j k => ?_⟩
      exact ⟨_, rfl, (floorClip01Bounds _).1, (floorClip01Bounds _).2⟩
  · by_cases hu : image.dtype = .uint8
    · simp [normalize_image, hu, Except.bind]
    · by_cases hs1 : (if image.dtype ≠ .float32 ∧ image.dtype ≠ .float64
                      then astypeDt .float32 image else image).size = 0
      · simp only [normalize_image, if_neg hu, if_pos hs1, Except.bind]
      · simp only [normalize_image, if_neg hu, if_neg hs1, Except.bind]
        simp [normalize_image]

/-- C10 amended witness: the uint8 image is returned unchanged and the
concrete nonempty float64 array normalises to a uint8 result. -/
theorem c10_normalize_amended_witness :
    normalize_image imgA = .ok imgA
      ∧ (∃ out, normalize_image imgF = .ok out
          ∧ out.dtype = .uint8
          ∧ (imgF.dtype ≠ .uint8 →
               ∀ i j k, ∃ z : ℤ, out.pix i j k = (z : ℚ) ∧ 0 ≤ z ∧ z ≤ 255)) :=
  ⟨(c10_normalize_amended imgA).1 rfl, (c10_normalize_amended imgF).2.1 (by decide)⟩

/-! ### Per-operator totality and shape lemmas -/

theorem exbind_ok {α β : Type} (a : α) (f : α → Except String β) :
    (Except.ok a : Except String α) >>= f = f a := rfl

theorem exbind_err {α β : Type} (e : String) (f : α → Except String β) :
    (Except.error e : Except String α) >>= f = Except.error e := rfl

theorem bgr2lab_ok (img : NDImg) (h3 : img.shape.length = 3)
    (hc : img.shape.getD 2 0 = 3) :
    ∃ out, bgr2lab img = Except.ok out ∧ out.shape = img.shape := by
  simp only [bgr2lab, if_pos (And.intro h3 hc)]
  exact ⟨_, rfl, rfl⟩

theorem lab2bgr_ok (img : NDImg) (h3 : img.shape.length = 3)
    (hc : img.shape.getD 2 0 = 3) :
    ∃ out, lab2bgr img = Except.ok out ∧ out.shape = img.shape := by
  simp only [lab2bgr, if_pos (And.intro h3 hc)]
  exact ⟨_, rfl, rfl⟩

theorem bgr2yuv_ok (img : NDImg) (h3 : img.shape.length = 3)
    (hc : img.shape.getD 2 0 = 3) :
    ∃ out, bgr2yuv img = Except.ok out ∧ out.shape = img.shape := by
  simp only [bgr2yuv, if_pos (And.intro h3 hc)]
  exact ⟨_, rfl, rfl⟩

theorem yuv2bgr_ok (img : NDImg) (h3 : img.shape.length = 3)
    (hc : img.shape.getD 2 0 = 3) :
    ∃ out, yuv2bgr img = Except.ok out ∧ out.shape = img.shape := by
  simp only [yuv2bgr, if_pos (And.intro h3 hc)]
  exact ⟨_, rfl, rfl⟩

theorem bgr2gray_ok (img : NDImg) (h3 : img.shape.length = 3)
    (hc : img.shape.getD 2 0 = 3) :
    ∃ out, bgr2gray img = Except.ok out ∧ out.shape = [img.h, img.w] := by
  simp only [bgr2gray, if_pos (And.intro h3 hc)]
  exact ⟨_, rfl, rfl⟩

theorem setChannel_shape (img : NDImg) (c0 : ℕ) (g : ℕ → ℕ → ℚ) :
    (setChannel img c0 g).shape = img.shape := rfl

theorem apply_clahe_ok (img : NDImg) (h3 : img.shape.length = 3)
    (hc : img.shape.getD 2 0 = 3) (cl : ℚ) (t : ℕ × ℕ) :
    ∃ out, apply_clahe img cl t = Except.ok out ∧ out.shape = img.shape := by
  obtain ⟨lab, hlab, hs⟩ := bgr2lab_ok img h3 hc
  obtain ⟨out, hout, hs2⟩ := lab2bgr_ok
    (setChannel lab 0 fun i j =>
      claheLut cl t lab.h lab.w (fun a b => lab.pix a b 0) (lab.pix i j 0))
    (by rw [setChannel_shape, hs]; exact h3)
    (by rw [setChannel_shape, hs]; exact hc)
  refine ⟨out, ?_, by rw [hs2, setChannel_shape, hs]⟩
  simp only [apply_clahe, hlab, exbind_ok, hout]

theorem apply_white_balance_ok (img : NDImg) (h3 : img.shape.length = 3)
    (hc : img.shape.getD 2 0 = 3) :
    ∃ out, apply_white_balance img = Except.ok out ∧ out.shape = img.shape := by
  simp only [apply_white_balance, if_pos (And.intro h3 (le_of_eq hc.symm))]
  exact ⟨_, rfl, rfl⟩

theorem apply_gamma_correction_shape (img : NDImg) (g : ℚ) :
    (apply_gamma_correction img g).shape = img.shape := rfl

theorem enhance_contrast_adaptive_ok (img : NDImg) (h3 : img.shape.length = 3)
    (hc : img.shape.getD 2 0 = 3) (method : String) :
    ∃ out, enhance_contrast_adaptive img method = Except.ok out
      ∧ out.shape = img.shape := by
  by_cases h1 : method = "clahe"
  · subst h1
    obtain ⟨out, hout, hs⟩ := apply_clahe_ok img h3 hc 2 (8, 8)
    exact ⟨out, by simpa [enhance_contrast_adaptive] using hout, hs⟩
  · by_cases h2 : method = "gamma"
    · subst h2
      obtain ⟨gray, hgray, _⟩ := bgr2gray_ok img h3 hc
      refine ⟨apply_gamma_correction img
        (max (1/2) (min 2 (1 / ((meanHW gray.h gray.w fun i j => gray.pix i j 0) / 255
          + 1/10)))), ?_, rfl⟩
      simp [enhance_contrast_adaptive, hgray, exbind_ok]
    · by_cases h4 : method = "histogram"
      · subst h4
        obtain ⟨yuv, hyuv, hs⟩ := bgr2yuv_ok img h3 hc
        obtain ⟨out, hout, hs2⟩ := yuv2bgr_ok
          (setChannel yuv 0 fun i j =>
            equalizeHistLut yuv.h yuv.w (fun a b => yuv.pix a b 0) (yuv.pix i j 0))
          (by rw [setChannel_shape, hs]; exact h3)
          (by rw [setChannel_shape, hs]; exact hc)
        refine ⟨out, ?_, by rw [hs2, setChannel_shape, hs]⟩
        simp [enhance_contrast_adaptive, hyuv, exbind_ok, hout]
      · exact ⟨img, by simp [enhance_contrast_adaptive, h1, h2, h4], rfl⟩

theorem apply_bilateral_denoise_shape (img : NDImg) (s : ℚ) :
    (apply_bilateral_denoise img s).shape = img.shape := by
  unfold apply_bilateral_denoise bilateralFilter
  split <;> rfl

theorem apply_morphological_opening_ok (img : NDImg) (h3 : img.shape.length = 3)
    (hc : img.shape.getD 2 0 = 3) (ksz : ℕ) :
    ∃ out, apply_morphological_operations img "opening" ksz = Except.ok out
      ∧ out.shape = img.shape := by
  unfold apply_morphological_operations
  rw [if_pos (rfl : ("opening" : String) = "opening"),
    if_pos (And.intro h3 (by rw [hc] : (3 : ℕ) ≤ img.shape.getD 2 0))]
  exact ⟨_, rfl, rfl⟩

theorem apply_compression_artifact_reduction_shape (img : NDImg) (s : ℚ) :
    (apply_compression_artifact_reduction img s).shape = img.shape := by
  unfold apply_compression_artifact_reduction cv2addWeighted
  split <;> rfl

theorem apply_sharpening_shape (img : NDImg) (s : ℚ) :
    (apply_sharpening img s).shape = img.shape := by
  unfold apply_sharpening cv2addWeighted
  split <;> rfl

theorem apply_adaptive_sharpening_ok (img : NDImg) (h3 : img.shape.length = 3)
    (hc : img.shape.getD 2 0 = 3) (s : ℚ) :
    ∃ out, apply_adaptive_sharpening img s = Except.ok out
      ∧ out.shape = img.shape := by
  obtain ⟨gray, hgray, _⟩ := bgr2gray_ok img h3 hc
  refine ⟨apply_sharpening img (max (1/10) (min 2 (s * (1 / (varHW gray.h gray.w
      (lap3 gray.h gray.w (gauss3u8 gray.h gray.w fun i j => gray.pix i j 0)) / 100
      + 1/10))))), ?_, apply_sharpening_shape img _⟩
  simp only [apply_adaptive_sharpening, hgray, exbind_ok]
  rfl

theorem apply_edge_enhancement_ok (img : NDImg) (h3 : img.shape.length = 3)
    (hc : img.shape.getD 2 0 = 3) (s : ℚ) :
    ∃ out, apply_edge_enhancement img s = Except.ok out
      ∧ out.shape = img.shape := by
  obtain ⟨gray, hgray, _⟩ := bgr2gray_ok img h3 hc
  refine ⟨cv2addWeighted img 1 (gray2bgr ⟨[gray.h, gray.w], .uint8, fun i j _ =>
    sat8Q |lap3 gray.h gray.w (fun a b => gray.pix a b 0) i j|⟩) s, ?_, rfl⟩
  simp only [apply_edge_enhancement, hgray, exbind_ok]
  rfl

theorem final_contrast_adjustment_ok (img : NDImg) (h3 : img.shape.length = 3)
    (hc : img.shape.getD 2 0 = 3) (method : String) :
    ∃ out, final_contrast_adjustment img method = Except.ok out
      ∧ out.shape = img.shape := by
  by_cases h1 : method = "auto"
  · subst h1
    obtain ⟨yuv, hyuv, hs⟩ := bgr2yuv_ok img h3 hc
    obtain ⟨out, hout, hs2⟩ := yuv2bgr_ok
      (setChannel yuv 0 fun i j =>
        u8clipTrunc ((yuv.pix i j 0
          - percentileQ (listHW yuv.h yuv.w fun a b => yuv.pix a b 0) 1)
          / (percentileQ (listHW yuv.h yuv.w fun a b => yuv.pix a b 0) 99
             - percentileQ (listHW yuv.h yuv.w fun a b => yuv.pix a b 0) 1) * 255))
      (by rw [setChannel_shape, hs]; exact h3)
      (by rw [setChannel_shape, hs]; exact hc)
    refine ⟨out, ?_, by rw [hs2, setChannel_shape, hs]⟩
    simp [final_contrast_adjustment, hyuv, exbind_ok, hout]
  · by_cases h2 : method = "stretch"
    · subst h2
      obtain ⟨yuv, hyuv, hs⟩ := bgr2yuv_ok img h3 hc
      obtain ⟨out, hout, hs2⟩ := yuv2bgr_ok
        (setChannel yuv 0 fun i j =>
          sat8Q ((yuv.pix i j 0 - listMin (listHW yuv.h yuv.w fun a b => yuv.pix a b 0))
            * 255 / (listMax (listHW yuv.h yuv.w fun a b => yuv.pix a b 0)
                     - listMin (listHW yuv.h yuv.w fun a b => yuv.pix a b 0))))
        (by rw [setChannel_shape, hs]; exact h3)
        (by rw [setChannel_shape, hs]; exact hc)
      refine ⟨out, ?_, by rw [hs2, setChannel_shape, hs]⟩
      simp [final_contrast_adjustment, hyuv, exbind_ok, hout]
    · exact ⟨img, by simp [final_contrast_adjustment, h1, h2], rfl⟩

theorem apply_color_correction_ok (img : NDImg) (h3 : img.shape.length = 3)
    (hc : img.shape.getD 2 0 = 3) :
    ∃ out, apply_color_correction img = Except.ok out ∧ out.shape = img.shape := by
  obtain ⟨lab, hlab, hs⟩ := bgr2lab_ok img h3 hc
  obtain ⟨out, hout, hs2⟩ := lab2bgr_ok
    (⟨lab.shape, lab.dtype, fun i j k =>
      if k = 1 then wrapU8 (lab.pix i j 1 - (channelMean lab 1 - 128) * (1/2))
      else if k = 2 then wrapU8 (lab.pix i j 2 - (channelMean lab 2 - 128) * (1/2))
      else lab.pix i j k⟩ : NDImg)
    (by simpa [hs] using h3) (by simpa [hs] using hc)
  refine ⟨out, ?_, by rw [hs2]; exact hs⟩
  simp only [apply_color_correction, hlab, exbind_ok, hout]

theorem apply_hdr_tone_mapping_shape (img : NDImg) (s : ℚ) :
    (apply_hdr_tone_mapping img s).shape = img.shape := rfl

/-! ### C7: pipeline shape invariants -/

/-- C7: for every well-formed 3-channel input image, `apply_restoration`
succeeds and preserves the shape (height, width, channels), and
`apply_enhancement` with scale factor s ∈ {2, 4} (models unavailable, as
in the shipped deployment, and any method string) succeeds with shape
exactly `[h*s, w*s, 3]`. -/
theorem c7_pipeline_shapes (image : NDImg) (params : ProcParams)
    (h3 : image.shape.length = 3) (hc : image.shape.getD 2 0 = 3)
    (hv : verify_image image = true) (s : ℕ) (hs : s = 2 ∨ s = 4) (m : String) :
    (∃ out, apply_restoration image params = Except.ok out ∧ out.shape = image.shape)
      ∧ (∃ out, apply_enhancement none none image s m params = Except.ok out
          ∧ out.shape = [image.h * s, image.w * s, 3]) := by
  constructor
  · obtain ⟨i1, e1, s1⟩ := apply_color_correction_ok image h3 hc
    obtain ⟨i2, e2, s2⟩ := apply_white_balance_ok i1
      (by rw [s1]; exact h3) (by rw [s1]; exact hc)
    have s3 : (apply_bilateral_denoise i2 params.denoise).shape = i2.shape :=
      apply_bilateral_denoise_shape i2 params.denoise
    obtain ⟨i4, e4, s4⟩ := apply_morphological_opening_ok
      (apply_bilateral_denoise i2 params.denoise)
      (by rw [s3, s2, s1]; exact h3) (by rw [s3, s2, s1]; exact hc) 3
    obtain ⟨i5, e5, s5⟩ := enhance_contrast_adaptive_ok i4
      (by rw [s4, s3, s2, s1]; exact h3) (by rw [s4, s3, s2, s1]; exact hc)
      params.contrast_method
    have s6 : (apply_compression_artifact_reduction i5
        params.compression_reduction).shape = i5.shape :=
      apply_compression_artifact_reduction_shape i5 params.compression_reduction
    obtain ⟨i7, e7, s7⟩ := apply_adaptive_sharpening_ok
      (apply_compression_artifact_reduction i5 params.compression_reduction)
      (by rw [s6, s5, s4, s3, s2, s1]; exact h3)
      (by rw [s6, s5, s4, s3, s2, s1]; exact hc) params.sharpness
    obtain ⟨i8, e8, s8⟩ := apply_edge_enhancement_ok i7
      (by rw [s7, s6, s5, s4, s3, s2, s1]; exact h3)
      (by rw [s7, s6, s5, s4, s3, s2, s1]; exact hc) params.edge_strength
    obtain ⟨i9, e9, s9⟩ := final_contrast_adjustment_ok i8
      (by rw [s8, s7, s6, s5, s4, s3, s2, s1]; exact h3)
      (by rw [s8, s7, s6, s5, s4, s3, s2, s1]; exact hc) "auto"
    refine ⟨i9, ?_, by rw [s9, s8, s7, s6, s5, s4, s3, s2, s1]⟩
    simp only [apply_restoration, e1, exbind_ok, e2, e4, e5, e7, e8, e9]
  · obtain ⟨i1, e1, s1⟩ := apply_color_correction_ok image h3 hc
    obtain ⟨i2, e2, s2⟩ := apply_white_balance_ok i1
      (by rw [s1]; exact h3) (by rw [s1]; exact hc)
    obtain ⟨i3, e3, s3⟩ := enhance_contrast_adaptive_ok i2
      (by rw [s2, s1]; exact h3) (by rw [s2, s1]; exact hc) "clahe"
    have hi4 : (if m = "srcnn" then apply_srcnn_enhancement none i3 s
                else if m = "realesrgan" then apply_realesrgan_enhancement none i3 s
                else cv2resizeCubic i3 (i3.w * s) (i3.h * s))
        = cv2resizeCubic i3 (i3.w * s) (i3.h * s) := by
      split_ifs <;> rfl
    have h43 : (cv2resizeCubic i3 (i3.w * s) (i3.h * s)).shape
        = [i3.h * s, i3.w * s, i3.shape.getD 2 0] := by
      unfold cv2resizeCubic
      rw [if_pos (by rw [s3, s2, s1]; exact h3)]
    have hgd : i3.shape.getD 2 0 = 3 := by rw [s3, s2, s1]; exact hc
    obtain ⟨i5, e5, s5⟩ := apply_adaptive_sharpening_ok
      (cv2resizeCubic i3 (i3.w * s) (i3.h * s))
      (by rw [h43]; rfl) (by rw [h43, hgd]; rfl) params.sharpness
    refine ⟨apply_hdr_tone_mapping i5 params.hdr_intensity, ?_, ?_⟩
    · simp only [apply_enhancement, e1, exbind_ok, e2, e3, hi4, e5]
      rfl
    · rw [apply_hdr_tone_mapping_shape, s5, h43, hgd]
      have hh : i3.h = image.h := by unfold NDImg.h; rw [s3, s2, s1]
      have hw : i3.w = image.w := by unfold NDImg.w; rw [s3, s2, s1]
      rw [hh, hw]

/-- C7 witness: the pipeline shape invariant instantiated on a concrete
8×8 3-channel image at scale 2, method "opencv". -/
theorem c7_pipeline_shapes_witness :
    (imgRGB.shape.length = 3 ∧ imgRGB.shape.getD 2 0 = 3
        ∧ verify_image imgRGB = true ∧ ((2 : ℕ) = 2 ∨ (2 : ℕ) = 4))
      ∧ ((∃ out, apply_restoration imgRGB ⟨3/10, "clahe", 1/2, 1/2, 1/5, 1/2⟩
            = Except.ok out ∧ out.shape = imgRGB.shape)
         ∧ (∃ out, apply_enhancement none none imgRGB 2 "opencv"
              ⟨3/10, "clahe", 1/2, 1/2, 1/5, 1/2⟩ = Except.ok out
            ∧ out.shape = [imgRGB.h * 2, imgRGB.w * 2, 3])) :=
  ⟨⟨by decide, by decide, by decide, Or.inl rfl⟩,
   c7_pipeline_shapes imgRGB ⟨3/10, "clahe", 1/2, 1/2, 1/5, 1/2⟩
     (by decide) (by decide) (by decide) 2 (Or.inl rfl) "opencv"⟩

/-! ### C8: totality over verify_image-accepted inputs -/

/-- C8 counterexample: the 5×5 2-D grayscale image is accepted by
`verify_image`, yet `apply_edge_enhancement` raises (`cv2.error` from
`cvtColor BGR2GRAY`, which requires 3 channels) — so not every operator
is total on well-formed images. -/
theorem c8_edge_enhancement_2d_counterexample :
    verify_image imgGray5 = true
      ∧ apply_edge_enhancement imgGray5 (1/2)
          = .error "cvtColor: invalid number of channels" :=
  ⟨by decide, rfl⟩

/-- C8 amended: every fallible operator of the pre/postprocessing chain
is total — raises no exception — on well-formed **3-channel** images
(the operators index three channels or convert from BGR, so 2-D and
single-channel inputs accepted by `verify_image` can raise; the
remaining operators are total functions on every array by
construction). -/
theorem c8_operators_total_on_3channel (img : NDImg) (h3 : img.shape.length = 3)
    (hc : img.shape.getD 2 0 = 3) (s : ℚ) (cm fm : String) (ksz : ℕ) :
    (∃ out, apply_white_balance img = Except.ok out)
      ∧ (∃ out, apply_color_correction img = Except.ok out)
      ∧ (∃ out, apply_clahe img 2 (8, 8) = Except.ok out)
      ∧ (∃ out, enhance_contrast_adaptive img cm = Except.ok out)
      ∧ (∃ out, apply_adaptive_sharpening img s = Except.ok out)
      ∧ (∃ out, apply_edge_enhancement img s = Except.ok out)
      ∧ (∃ out, final_contrast_adjustment img fm = Except.ok out)
      ∧ (∃ out, apply_morphological_operations img "opening" ksz = Except.ok out) := by
  obtain ⟨o1, e1, _⟩ := apply_white_balance_ok img h3 hc
  obtain ⟨o2, e2, _⟩ := apply_color_correction_ok img h3 hc
  obtain ⟨o3, e3, _⟩ := apply_clahe_ok img h3 hc 2 (8, 8)
  obtain ⟨o4, e4, _⟩ := enhance_contrast_adaptive_ok img h3 hc cm
  obtain ⟨o5, e5, _⟩ := apply_adaptive_sharpening_ok img h3 hc s
  obtain ⟨o6, e6, _⟩ := apply_edge_enhancement_ok img h3 hc s
  obtain ⟨o7, e7, _⟩ := final_contrast_adjustment_ok img h3 hc fm
  obtain ⟨o8, e8, _⟩ := apply_morphological_opening_ok img h3 hc ksz
  exact ⟨⟨o1, e1⟩, ⟨o2, e2⟩, ⟨o3, e3⟩, ⟨o4, e4⟩, ⟨o5, e5⟩, ⟨o6, e6⟩, ⟨o7, e7⟩, ⟨o8, e8⟩⟩

/-- C8 amended witness: totality of the fallible operators on the
concrete 8×8 3-channel image — including the degenerate strengths and
an unrecognised contrast method. -/
theorem c8_operators_total_witness :
    (imgRGB.shape.length = 3 ∧ imgRGB.shape.getD 2 0 = 3)
      ∧ ((∃ out, apply_white_balance imgRGB = Except.ok out)
         ∧ (∃ out, apply_color_correction imgRGB = Except.ok out)
         ∧ (∃ out, apply_clahe imgRGB 2 (8, 8) = Except.ok out)
         ∧ (∃ out, enhance_contrast_adaptive imgRGB "gamma" = Except.ok out)
         ∧ (∃ out, apply_adaptive_sharpening imgRGB (1/2) = Except.ok out)
         ∧ (∃ out, apply_edge_enhancement imgRGB (1/2) = Except.ok out)
         ∧ (∃ out, final_contrast_adjustment imgRGB "auto" = Except.ok out)
         ∧ (∃ out, apply_morphological_operations imgRGB "opening" 3 = Except.ok out)) :=
  ⟨⟨by decide, by decide⟩,
   c8_operators_total_on_3channel imgRGB (by decide) (by decide) (1/2) "gamma" "auto" 3⟩

/-! ### C5: the blend rule -/

theorem exp_le_one_of_nonpos {x : ℝ} (hx : x ≤ 0) : Real.exp x ≤ 1 := by
  calc Real.exp x ≤ Real.exp 0 := Real.exp_le_exp.2 hx
    _ = 1 := Real.exp_zero

theorem reflect101_one (z : ℤ) : reflect101 1 z = 0 := rfl

theorem reflect101_two (z : ℤ) : reflect101 2 z = (z % 2).toNat := by
  unfold reflect101
  rw [if_neg (by norm_num)]
  have h2 : (2 * ((2 : ℕ) : ℤ) - 2) = 2 := by norm_num
  rw [h2]
  rw [if_pos]
  have := Int.emod_lt_of_pos z (show (0 : ℤ) < 2 by norm_num)
  omega

theorem bilatWt_pos (img : NDImg) (sc ss : ℚ) (i j : ℕ) (p : ℤ × ℤ) :
    0 < bilatWt img sc ss i j p := Real.exp_pos _

theorem bilatWt_le_one (img : NDImg) (sc ss : ℚ) (i j : ℕ) (p : ℤ × ℤ) :
    bilatWt img sc ss i j p ≤ 1 := by
  apply exp_le_one_of_nonpos
  have h5 : -(((p.1 ^ 2 + p.2 ^ 2 : ℤ) : ℝ)) / (2 * (ss : ℝ) ^ 2) ≤ 0 := by
    rw [neg_div, neg_nonpos]
    positivity
  have h6 : (0 : ℝ) ≤ (bilatColorDist img i j p : ℝ) ^ 2 / (2 * (sc : ℝ) ^ 2) := by
    positivity
  linarith

theorem imgRow_pix_nonneg (a b c : ℕ) : 0 ≤ imgRow.pix a b c := by
  unfold imgRow
  dsimp only
  split <;> norm_num

/-- At the left pixel of the 1×2 image `[0, 8]`, the bilateral filter
with `d = 7`, sigmas 50 (the parameters `reduce_jpeg_artifacts` derives
from strength 1/2) produces an 8-bit value of at least 2. -/
theorem bilateral_imgRow_pix :
    ∃ z : ℤ, (bilateralFilter imgRow 7 50 50).pix 0 0 0 = (z : ℚ)
      ∧ 2 ≤ z ∧ z ≤ 255 := by
  have hh : imgRow.h = 1 := rfl
  have hw : imgRow.w = 2 := rfl
  -- the odd-column offsets, whose sampled value is 8
  have hcard : (diskK 3).card = 29 := by decide
  have hcardodd : ((diskK 3).filter fun p => p.2 % 2 = 1).card = 12 := by decide
  have hnbr : ∀ p : ℤ × ℤ, bilatNbr imgRow 0 0 p = (0, (p.2 % 2).toNat) := by
    intro p
    unfold bilatNbr
    rw [hh, hw, reflect101_one, reflect101_two]
    norm_num
  have hvalodd : ∀ p : ℤ × ℤ, p.2 % 2 = 1 →
      imgRow.pix (bilatNbr imgRow 0 0 p).1 (bilatNbr imgRow 0 0 p).2 0 = 8 := by
    intro p hp
    rw [hnbr p, hp]
    rfl
  have hcd : ∀ p : ℤ × ℤ, p.2 % 2 = 1 → bilatColorDist imgRow 0 0 p = 8 := by
    intro p hp
    unfold bilatColorDist
    have hce : imgRow.cEff = 1 := rfl
    rw [hce, Finset.sum_range_one, hnbr p, hp]
    show |imgRow.pix 0 1 0 - imgRow.pix 0 0 0| = 8
    simp only [imgRow]
    norm_num
  -- lower bound on each odd-offset weight
  have hwlow : ∀ p ∈ diskK 3, p.2 % 2 = 1 →
      (4927 / 5000 : ℝ) ≤ bilatWt imgRow 50 50 0 0 p := by
    intro p hp hodd
    have hdisk : p.1 ^ 2 + p.2 ^ 2 ≤ (3 : ℤ) ^ 2 := by
      have := (Finset.mem_filter.1 hp).2
      exact_mod_cast this
    unfold bilatWt
    rw [hcd p hodd]
    have harg : -(73 / 5000 : ℝ) ≤
        -(((p.1 ^ 2 + p.2 ^ 2 : ℤ) : ℝ)) / (2 * ((50 : ℚ) : ℝ) ^ 2)
          - ((8 : ℚ) : ℝ) ^ 2 / (2 * ((50 : ℚ) : ℝ) ^ 2) := by
      have hb : ((p.1 ^ 2 + p.2 ^ 2 : ℤ) : ℝ) ≤ 9 := by exact_mod_cast hdisk
      have hnn : (0 : ℝ) ≤ ((p.1 ^ 2 + p.2 ^ 2 : ℤ) : ℝ) := by positivity
      push_cast
      push_cast at hb hnn
      nlinarith
    calc (4927 / 5000 : ℝ) = (-(73 / 5000) : ℝ) + 1 := by norm_num
      _ ≤ (-(((p.1 ^ 2 + p.2 ^ 2 : ℤ) : ℝ)) / (2 * ((50 : ℚ) : ℝ) ^ 2)
            - ((8 : ℚ) : ℝ) ^ 2 / (2 * ((50 : ℚ) : ℝ) ^ 2)) + 1 := by linarith
      _ ≤ Real.exp (-(((p.1 ^ 2 + p.2 ^ 2 : ℤ) : ℝ)) / (2 * ((50 : ℚ) : ℝ) ^ 2)
            - ((8 : ℚ) : ℝ) ^ 2 / (2 * ((50 : ℚ) : ℝ) ^ 2)) := by
          have := Real.add_one_le_exp (-(((p.1 ^ 2 + p.2 ^ 2 : ℤ) : ℝ)) /
            (2 * ((50 : ℚ) : ℝ) ^ 2) - ((8 : ℚ) : ℝ) ^ 2 / (2 * ((50 : ℚ) : ℝ) ^ 2))
          linarith
  -- denominator bounds
  have hden_pos : 0 < ∑ p ∈ diskK 3, bilatWt imgRow 50 50 0 0 p := by
    apply Finset.sum_pos (fun p _ => bilatWt_pos imgRow 50 50 0 0 p)
    exact ⟨(0, 0), by decide⟩
  have hden_le : (∑ p ∈ diskK 3, bilatWt imgRow 50 50 0 0 p) ≤ 29 := by
    calc (∑ p ∈ diskK 3, bilatWt imgRow 50 50 0 0 p)
        ≤ (diskK 3).card • (1 : ℝ) :=
          Finset.sum_le_card_nsmul _ _ 1 (fun p _ => bilatWt_le_one imgRow 50 50 0 0 p)
      _ = 29 := by rw [hcard]; simp
  -- numerator lower bound
  have hnum_low : (472992 / 5000 : ℝ) ≤
      ∑ p ∈ diskK 3, bilatWt imgRow 50 50 0 0 p
        * (imgRow.pix (bilatNbr imgRow 0 0 p).1 (bilatNbr imgRow 0 0 p).2 0 : ℝ) := by
    have hsub : ((diskK 3).filter fun p => p.2 % 2 = 1) ⊆ diskK 3 :=
      Finset.filter_subset _ _
    have hstep1 : ∑ p ∈ (diskK 3).filter (fun p => p.2 % 2 = 1),
        bilatWt imgRow 50 50 0 0 p
          * (imgRow.pix (bilatNbr imgRow 0 0 p).1 (bilatNbr imgRow 0 0 p).2 0 : ℝ)
        ≤ ∑ p ∈ diskK 3, bilatWt imgRow 50 50 0 0 p
          * (imgRow.pix (bilatNbr imgRow 0 0 p).1 (bilatNbr imgRow 0 0 p).2 0 : ℝ) := by
      apply Finset.sum_le_sum_of_subset_of_nonneg hsub
      intro p _ _
      have h8 : (0 : ℚ) ≤ imgRow.pix (bilatNbr imgRow 0 0 p).1 (bilatNbr imgRow 0 0 p).2 0 :=
        imgRow_pix_nonneg _ _ _
      have : (0 : ℝ) ≤ (imgRow.pix (bilatNbr imgRow 0 0 p).1 (bilatNbr imgRow 0 0 p).2 0 : ℝ) := by
        exact_mod_cast h8
      exact mul_nonneg (bilatWt_pos imgRow 50 50 0 0 p).le this
    have hstep2 : (472992 / 5000 : ℝ)
        ≤ ∑ p ∈ (diskK 3).filter (fun p => p.2 % 2 = 1),
            bilatWt imgRow 50 50 0 0 p
              * (imgRow.pix (bilatNbr imgRow 0 0 p).1 (bilatNbr imgRow 0 0 p).2 0 : ℝ) := by
      have hterm : ∀ p ∈ (diskK 3).filter (fun p => p.2 % 2 = 1),
          (39416 / 5000 : ℝ) ≤ bilatWt imgRow 50 50 0 0 p
            * (imgRow.pix (bilatNbr imgRow 0 0 p).1 (bilatNbr imgRow 0 0 p).2 0 : ℝ) := by
        intro p hp
        obtain ⟨hmem, hodd⟩ := Finset.mem_filter.1 hp
        rw [hvalodd p hodd]
        have := hwlow p hmem hodd
        push_cast
        nlinarith [this]
      calc (472992 / 5000 : ℝ)
          = ((diskK 3).filter fun p => p.2 % 2 = 1).card • (39416 / 5000 : ℝ) := by
            rw [hcardodd]; simp; norm_num
        _ ≤ _ := Finset.card_nsmul_le_sum _ _ _ hterm
    linarith
  -- the normalised average is at least 5/2
  have hval : (5 / 2 : ℝ) ≤
      (∑ p ∈ diskK 3, bilatWt imgRow 50 50 0 0 p
          * (imgRow.pix (bilatNbr imgRow 0 0 p).1 (bilatNbr imgRow 0 0 p).2 0 : ℝ))
        / (∑ p ∈ diskK 3, bilatWt imgRow 50 50 0 0 p) := by
    rw [le_div_iff hden_pos]
    nlinarith [hnum_low, hden_le, hden_pos]
  -- conclude from the rounding bounds
  have hpix : (bilateralFilter imgRow 7 50 50).pix 0 0 0
      = sat8R ((∑ p ∈ diskK 3, bilatWt imgRow 50 50 0 0 p
          * (imgRow.pix (bilatNbr imgRow 0 0 p).1 (bilatNbr imgRow 0 0 p).2 0 : ℝ))
        / (∑ p ∈ diskK 3, bilatWt imgRow 50 50 0 0 p)) := rfl
  rw [hpix]
  set v : ℝ := (∑ p ∈ diskK 3, bilatWt imgRow 50 50 0 0 p
      * (imgRow.pix (bilatNbr imgRow 0 0 p).1 (bilatNbr imgRow 0 0 p).2 0 : ℝ))
    / (∑ p ∈ diskK 3, bilatWt imgRow 50 50 0 0 p) with hv
  refine ⟨max 0 (min 255 (roundHalfEvenR v)), rfl, ?_, ?_⟩
  · have h1 : (2 : ℝ) ≤ ((roundHalfEvenR v : ℤ) : ℝ) := by
      have := le_roundHalfEvenR v
      linarith
    have h2 : (2 : ℤ) ≤ roundHalfEvenR v := by exact_mod_cast h1
    have h3 : (2 : ℤ) ≤ min 255 (roundHalfEvenR v) := le_min (by norm_num) h2
    exact le_trans h3 (le_max_right 0 _)
  · exact max_le (by norm_num) (min_le_left 255 _)

/-- C5 counterexample: on the 1×2 image `[0, 8]` at strength 1/2,
`reduce_jpeg_artifacts` returns the bilateral-filtered image directly,
which is **not** the `(1-s)·original + s·filtered` blend the claim
prescribes: at the left pixel the code keeps the full filtered value
(at least 2) while the blend would halve it. -/
theorem c5_blend_counterexample :
    reduce_jpeg_artifacts imgRow (1/2)
      ≠ cv2addWeighted imgRow (1 - 1/2) (bilateralFilter imgRow 7 50 50) (1/2) := by
  have hred : reduce_jpeg_artifacts imgRow (1/2) = bilateralFilter imgRow 7 50 50 := by
    unfold reduce_jpeg_artifacts
    rw [if_neg (by norm_num)]
    norm_num [intTrunc, Int.toNat_ofNat]
    rfl
  obtain ⟨z, hz, hz2, hz255⟩ := bilateral_imgRow_pix
  intro hEq
  have hp := congrArg (fun im : NDImg => im.pix 0 0 0) hEq
  simp only at hp
  rw [hred] at hp
  simp only [cv2addWeighted] at hp
  rw [hz] at hp
  have h0 : imgRow.pix 0 0 0 = 0 := rfl
  rw [h0] at hp
  rw [show (0 : ℚ) * (1 - 1/2) + (z : ℚ) * (1/2) = (z : ℚ) * (1/2) by ring] at hp
  have hlt : sat8Q ((z : ℚ) * (1/2)) < (z : ℚ) := by
    unfold sat8Q
    have hub : (roundHalfEvenQ ((z : ℚ) * (1/2)) : ℚ) ≤ (z : ℚ) * (1/2) + 1/2 :=
      roundHalfEvenQ_le _
    have h1 : (roundHalfEvenQ ((z : ℚ) * (1/2)) : ℚ) < (z : ℚ) := by
      have hzq : (2 : ℚ) ≤ (z : ℚ) := by exact_mod_cast hz2
      linarith
    have hr : roundHalfEvenQ ((z : ℚ) * (1/2)) ≤ z - 1 := by
      have : roundHalfEvenQ ((z : ℚ) * (1/2)) < z := by exact_mod_cast h1
      omega
    have hmax : max 0 (min 255 (roundHalfEvenQ ((z : ℚ) * (1/2)))) ≤ z - 1 := by
      apply max_le
      · omega
      · calc min 255 (roundHalfEvenQ ((z : ℚ) * (1/2)))
            ≤ roundHalfEvenQ ((z : ℚ) * (1/2)) := min_le_right _ _
          _ ≤ z - 1 := hr
    calc ((max 0 (min 255 (roundHalfEvenQ ((z : ℚ) * (1/2)))) : ℤ) : ℚ)
        ≤ ((z - 1 : ℤ) : ℚ) := by exact_mod_cast hmax
      _ < (z : ℚ) := by push_cast; linarith
  exact (ne_of_lt hlt) hp.symm

/-- C5 amended: strength 0 is the identity for all three operators;
`apply_sharpening` and `apply_compression_artifact_reduction` do use the
`(1-s)·original + s·filtered` blend for positive strength
(`addWeighted(image, 1-s, filtered, s, 0)`) and at strength 1 return
exactly the fully filtered image; but `reduce_jpeg_artifacts` performs
no blending — for every positive strength it returns the
bilateral-filtered image directly, with strength-scaled filter
parameters. -/
theorem c5_blend_amended (image : NDImg) (s : ℚ) :
    reduce_jpeg_artifacts image 0 = image
      ∧ (0 < s → reduce_jpeg_artifacts image s
          = bilateralFilter image (max 5 (intTrunc (15 * s)).toNat)
              (max 10 ((intTrunc (100 * s) : ℤ) : ℚ))
              (max 10 ((intTrunc (100 * s) : ℤ) : ℚ)))
      ∧ apply_compression_artifact_reduction image 0 = image
      ∧ (0 < s → apply_compression_artifact_reduction image s
          = cv2addWeighted image (1 - s)
              (bilateralFilter (medianBlur3 image) 9 75 75) s)
      ∧ apply_compression_artifact_reduction image 1
          = bilateralFilter (medianBlur3 image) 9 75 75
      ∧ apply_sharpening image 0 = image
      ∧ (0 < s → apply_sharpening image s
          = cv2addWeighted image (1 - s) (filter2D3x3 image (sharpKernel s)) s)
      ∧ apply_sharpening image 1 = filter2D3x3 image (sharpKernel 1) := by
  refine ⟨?_, ?_, ?_, ?_, ?_, ?_, ?_, ?_⟩
  · simp [reduce_jpeg_artifacts]
  · intro hs
    unfold reduce_jpeg_artifacts
    rw [if_neg (not_le.2 hs)]
  · simp [apply_compression_artifact_reduction]
  · intro hs
    unfold apply_compression_artifact_reduction
    rw [if_neg (not_le.2 hs)]
  · unfold apply_compression_artifact_reduction
    rw [if_neg (by norm_num)]
    show cv2addWeighted image (1 - 1) (bilateralFilter (medianBlur3 image) 9 75 75) 1
      = bilateralFilter (medianBlur3 image) 9 75 75
    unfold cv2addWeighted bilateralFilter
    congr 1
    funext i j k
    dsimp only
    obtain ⟨z, hz, h0, h255⟩ := sat8R_exists_int
      ((∑ p ∈ diskK (9 / 2), bilatWt (medianBlur3 image) 75 75 i j p
          * ((medianBlur3 image).pix (bilatNbr (medianBlur3 image) i j p).1
              (bilatNbr (medianBlur3 image) i j p).2 k : ℝ))
        / (∑ p ∈ diskK (9 / 2), bilatWt (medianBlur3 image) 75 75 i j p))
    rw [hz]
    rw [show image.pix i j k * (1 - 1) + (z : ℚ) * 1 = ((z : ℤ) : ℚ) by ring]
    exact sat8Q_intCast z h0 h255
  · simp [apply_sharpening]
  · intro hs
    unfold apply_sharpening
    rw [if_neg (not_le.2 hs)]
  · unfold apply_sharpening
    rw [if_neg (by norm_num)]
    show cv2addWeighted image (1 - 1) (filter2D3x3 image (sharpKernel 1)) 1
      = filter2D3x3 image (sharpKernel 1)
    unfold cv2addWeighted filter2D3x3
    congr 1
    funext i j k
    dsimp only
    obtain ⟨z, hz, h0, h255⟩ := sat8Q_exists_int
      (∑ a ∈ Finset.Icc (-1 : ℤ) 1, ∑ b ∈ Finset.Icc (-1 : ℤ) 1,
        sharpKernel 1 a b
          * image.pix (reflect101 image.h ((i : ℤ) + a)) (reflect101 image.w ((j : ℤ) + b)) k)
    rw [hz]
    rw [show image.pix i j k * (1 - 1) + (z : ℚ) * 1 = ((z : ℤ) : ℚ) by ring]
    exact sat8Q_intCast z h0 h255

/-- C5 amended witness: the amended blend facts evaluated at a concrete
image and the concrete strength 1/2. -/
theorem c5_blend_amended_witness :
    (0 < (1/2 : ℚ))
      ∧ reduce_jpeg_artifacts imgA 0 = imgA
      ∧ reduce_jpeg_artifacts imgA (1/2)
          = bilateralFilter imgA (max 5 (intTrunc (15 * (1/2))).toNat)
              (max 10 ((intTrunc (100 * (1/2)) : ℤ) : ℚ))
              (max 10 ((intTrunc (100 * (1/2)) : ℤ) : ℚ))
      ∧ apply_compression_artifact_reduction imgA 0 = imgA
      ∧ apply_compression_artifact_reduction imgA (1/2)
          = cv2addWeighted imgA (1 - 1/2)
              (bilateralFilter (medianBlur3 imgA) 9 75 75) (1/2)
      ∧ apply_compression_artifact_reduction imgA 1
          = bilateralFilter (medianBlur3 imgA) 9 75 75
      ∧ apply_sharpening imgA 0 = imgA
      ∧ apply_sharpening imgA (1/2)
          = cv2addWeighted imgA (1 - 1/2) (filter2D3x3 imgA (sharpKernel (1/2))) (1/2)
      ∧ apply_sharpening imgA 1 = filter2D3x3 imgA (sharpKernel 1) :=
  ⟨by norm_num, (c5_blend_amended imgA (1/2)).1,
   (c5_blend_amended imgA (1/2)).2.1 (by norm_num),
   (c5_blend_amended imgA (1/2)).2.2.1,
   (c5_blend_amended imgA (1/2)).2.2.2.1 (by norm_num),
   (c5_blend_amended imgA (1/2)).2.2.2.2.1,
   (c5_blend_amended imgA (1/2)).2.2.2.2.2.1,
   (c5_blend_amended imgA (1/2)).2.2.2.2.2.2.1 (by norm_num),
   (c5_blend_amended imgA (1/2)).2.2.2.2.2.2.2⟩

/-! ### C4: SSIM bounds and identity -/

theorem gkTotal_pos : 0 < gkTotal := by
  unfold gkTotal
  apply Finset.sum_pos (fun i _ => by unfold gk; exact Real.exp_pos _)
  exact ⟨0, by decide⟩

theorem gw_nonneg (i : ℕ) : 0 ≤ gw i := by
  unfold gw gk
  exact div_nonneg (Real.exp_pos _).le gkTotal_pos.le

theorem gw_sum : ∑ i ∈ Finset.range 11, gw i = 1 := by
  unfold gw
  rw [← Finset.sum_div]
  show gkTotal / gkTotal = 1
  exact div_self (ne_of_gt gkTotal_pos)

theorem wpair_nonneg (p : ℕ × ℕ) : 0 ≤ gw p.1 * gw p.2 :=
  mul_nonneg (gw_nonneg _) (gw_nonneg _)

theorem wpair_sum :
    ∑ p ∈ Finset.range 11 ×ˢ Finset.range 11, gw p.1 * gw p.2 = 1 := by
  rw [Finset.sum_product]
  have h : ∀ a ∈ Finset.range 11, ∑ b ∈ Finset.range 11, gw a * gw b = gw a := by
    intro a _
    rw [← Finset.mul_sum, gw_sum, mul_one]
  rw [Finset.sum_congr rfl h, gw_sum]

theorem gblur11_eq (h w : ℕ) (f : ℕ → ℕ → ℝ) (i j : ℕ) :
    gblur11 h w f i j = ∑ p ∈ Finset.range 11 ×ˢ Finset.range 11,
      gw p.1 * gw p.2
        * f (reflect101 h ((i : ℤ) + p.1 - 5)) (reflect101 w ((j : ℤ) + p.2 - 5)) := by
  rw [Finset.sum_product]
  rfl

/-- Jensen for weighted averages: the square of a convex combination is
at most the convex combination of the squares. -/
theorem wavg_sq_le {ι : Type} (s : Finset ι) (w u : ι → ℝ)
    (hw : ∀ p ∈ s, 0 ≤ w p) (h1 : ∑ p ∈ s, w p = 1) :
    (∑ p ∈ s, w p * u p) ^ 2 ≤ ∑ p ∈ s, w p * u p ^ 2 := by
  have key := Finset.sum_mul_sq_le_sq_mul_sq s (fun p => Real.sqrt (w p))
    (fun p => Real.sqrt (w p) * u p)
  have e1 : ∑ p ∈ s, Real.sqrt (w p) * (Real.sqrt (w p) * u p) = ∑ p ∈ s, w p * u p :=
    Finset.sum_congr rfl fun p hp => by
      rw [← mul_assoc, Real.mul_self_sqrt (hw p hp)]
  have e2 : ∑ p ∈ s, Real.sqrt (w p) ^ 2 = ∑ p ∈ s, w p :=
    Finset.sum_congr rfl fun p hp => Real.sq_sqrt (hw p hp)
  have e3 : ∑ p ∈ s, (Real.sqrt (w p) * u p) ^ 2 = ∑ p ∈ s, w p * u p ^ 2 :=
    Finset.sum_congr rfl fun p hp => by rw [mul_pow, Real.sq_sqrt (hw p hp)]
  rw [e1, e2, e3, h1, one_mul] at key
  exact key

/-- Expansion of the centred product under a unit-mass weighting. -/
theorem wavg_center_prod {ι : Type} (s : Finset ι) (w u v : ι → ℝ)
    (h1 : ∑ p ∈ s, w p = 1) :
    ∑ p ∈ s, w p * ((u p - ∑ q ∈ s, w q * u q) * (v p - ∑ q ∈ s, w q * v q))
      = (∑ p ∈ s, w p * (u p * v p))
        - (∑ p ∈ s, w p * u p) * (∑ p ∈ s, w p * v p) := by
  have expand : ∀ p ∈ s,
      w p * ((u p - ∑ q ∈ s, w q * u q) * (v p - ∑ q ∈ s, w q * v q))
        = w p * (u p * v p) - (∑ q ∈ s, w q * v q) * (w p * u p)
          - (∑ q ∈ s, w q * u q) * (w p * v p)
          + ((∑ q ∈ s, w q * u q) * (∑ q ∈ s, w q * v q)) * w p :=
    fun p _ => by ring
  rw [Finset.sum_congr rfl expand]
  rw [Finset.sum_add_distrib, Finset.sum_sub_distrib, Finset.sum_sub_distrib,
    ← Finset.mul_sum, ← Finset.mul_sum, ← Finset.mul_sum, h1]
  ring

/-- Cauchy–Schwarz for weighted covariances:
`cov(u,v)² ≤ var(u)·var(v)`. -/
theorem wavg_cov_sq_le {ι : Type} (s : Finset ι) (w u v : ι → ℝ)
    (hw : ∀ p ∈ s, 0 ≤ w p) (h1 : ∑ p ∈ s, w p = 1) :
    ((∑ p ∈ s, w p * (u p * v p))
        - (∑ p ∈ s, w p * u p) * (∑ p ∈ s, w p * v p)) ^ 2
      ≤ ((∑ p ∈ s, w p * u p ^ 2) - (∑ p ∈ s, w p * u p) ^ 2)
        * ((∑ p ∈ s, w p * v p ^ 2) - (∑ p ∈ s, w p * v p) ^ 2) := by
  have key := Finset.sum_mul_sq_le_sq_mul_sq s
    (fun p => Real.sqrt (w p) * (u p - ∑ q ∈ s, w q * u q))
    (fun p => Real.sqrt (w p) * (v p - ∑ q ∈ s, w q * v q))
  have e1 : ∑ p ∈ s, (Real.sqrt (w p) * (u p - ∑ q ∈ s, w q * u q))
        * (Real.sqrt (w p) * (v p - ∑ q ∈ s, w q * v q))
      = ∑ p ∈ s, w p * ((u p - ∑ q ∈ s, w q * u q) * (v p - ∑ q ∈ s, w q * v q)) :=
    Finset.sum_congr rfl fun p hp => by
      rw [show (Real.sqrt (w p) * (u p - ∑ q ∈ s, w q * u q))
            * (Real.sqrt (w p) * (v p - ∑ q ∈ s, w q * v q))
          = (Real.sqrt (w p) * Real.sqrt (w p))
            * ((u p - ∑ q ∈ s, w q * u q) * (v p - ∑ q ∈ s, w q * v q)) by ring,
        Real.mul_self_sqrt (hw p hp)]
  have e2 : ∑ p ∈ s, (Real.sqrt (w p) * (u p - ∑ q ∈ s, w q * u q)) ^ 2
      = ∑ p ∈ s, w p * ((u p - ∑ q ∈ s, w q * u q) * (u p - ∑ q ∈ s, w q * u q)) :=
    Finset.sum_congr rfl fun p hp => by
      rw [mul_pow, Real.sq_sqrt (hw p hp)]
      ring
  have e3 : ∑ p ∈ s, (Real.sqrt (w p) * (v p - ∑ q ∈ s, w q * v q)) ^ 2
      = ∑ p ∈ s, w p * ((v p - ∑ q ∈ s, w q * v q) * (v p - ∑ q ∈ s, w q * v q)) :=
    Finset.sum_congr rfl fun p hp => by
      rw [mul_pow, Real.sq_sqrt (hw p hp)]
      ring
  rw [e1, e2, e3, wavg_center_prod s w u v h1, wavg_center_prod s w u u h1,
    wavg_center_prod s w v v h1] at key
  have eu : ∑ p ∈ s, w p * (u p * u p) = ∑ p ∈ s, w p * u p ^ 2 :=
    Finset.sum_congr rfl fun p _ => by ring
  have ev : ∑ p ∈ s, w p * (v p * v p) = ∑ p ∈ s, w p * v p ^ 2 :=
    Finset.sum_congr rfl fun p _ => by ring
  rw [eu, ev] at key
  calc ((∑ p ∈ s, w p * (u p * v p))
        - (∑ p ∈ s, w p * u p) * (∑ p ∈ s, w p * v p)) ^ 2
      ≤ ((∑ p ∈ s, w p * u p ^ 2) - (∑ p ∈ s, w p * u p) * (∑ p ∈ s, w p * u p))
        * ((∑ p ∈ s, w p * v p ^ 2) - (∑ p ∈ s, w p * v p) * (∑ p ∈ s, w p * v p)) := key
    _ = _ := by ring

theorem ssimC1_pos : (0 : ℝ) < ssimC1 := by norm_num [ssimC1]

theorem ssimC2_pos : (0 : ℝ) < ssimC2 := by norm_num [ssimC2]

/-- The SSIM combination of the local statistics of any unit-mass
nonnegative weighting lies in `[-1, 1]`. -/
theorem ssim_core_bounds {ι : Type} (s : Finset ι) (w u v : ι → ℝ)
    (hw : ∀ p ∈ s, 0 ≤ w p) (h1 : ∑ p ∈ s, w p = 1) :
    -1 ≤ ((2 * (∑ p ∈ s, w p * u p) * (∑ p ∈ s, w p * v p) + ssimC1)
          * (2 * ((∑ p ∈ s, w p * (u p * v p))
                  - (∑ p ∈ s, w p * u p) * (∑ p ∈ s, w p * v p)) + ssimC2))
        / (((∑ p ∈ s, w p * u p) ^ 2 + (∑ p ∈ s, w p * v p) ^ 2 + ssimC1)
           * (((∑ p ∈ s, w p * u p ^ 2) - (∑ p ∈ s, w p * u p) ^ 2)
              + ((∑ p ∈ s, w p * v p ^ 2) - (∑ p ∈ s, w p * v p) ^ 2) + ssimC2))
      ∧ ((2 * (∑ p ∈ s, w p * u p) * (∑ p ∈ s, w p * v p) + ssimC1)
          * (2 * ((∑ p ∈ s, w p * (u p * v p))
                  - (∑ p ∈ s, w p * u p) * (∑ p ∈ s, w p * v p)) + ssimC2))
        / (((∑ p ∈ s, w p * u p) ^ 2 + (∑ p ∈ s, w p * v p) ^ 2 + ssimC1)
           * (((∑ p ∈ s, w p * u p ^ 2) - (∑ p ∈ s, w p * u p) ^ 2)
              + ((∑ p ∈ s, w p * v p ^ 2) - (∑ p ∈ s, w p * v p) ^ 2) + ssimC2))
        ≤ 1 := by
  have hs1 : 0 ≤ (∑ p ∈ s, w p * u p ^ 2) - (∑ p ∈ s, w p * u p) ^ 2 :=
    sub_nonneg.2 (wavg_sq_le s w u hw h1)
  have hs2 : 0 ≤ (∑ p ∈ s, w p * v p ^ 2) - (∑ p ∈ s, w p * v p) ^ 2 :=
    sub_nonneg.2 (wavg_sq_le s w v hw h1)
  have hcs := wavg_cov_sq_le s w u v hw h1
  set m1 := ∑ p ∈ s, w p * u p with hm1
  set m2 := ∑ p ∈ s, w p * v p with hm2
  set cv := (∑ p ∈ s, w p * (u p * v p)) - m1 * m2 with hcv
  set s1 := (∑ p ∈ s, w p * u p ^ 2) - m1 ^ 2 with hsd1
  set s2 := (∑ p ∈ s, w p * v p ^ 2) - m2 ^ 2 with hsd2
  have hC1 := ssimC1_pos
  have hC2 := ssimC2_pos
  have hD1 : 0 < m1 ^ 2 + m2 ^ 2 + ssimC1 := by nlinarith [sq_nonneg m1, sq_nonneg m2]
  have hD2 : 0 < s1 + s2 + ssimC2 := by linarith
  have hA : |2 * m1 * m2 + ssimC1| ≤ m1 ^ 2 + m2 ^ 2 + ssimC1 := by
    rw [abs_le]
    constructor <;> nlinarith [sq_nonneg (m1 + m2), sq_nonneg (m1 - m2)]
  have hB : |2 * cv + ssimC2| ≤ s1 + s2 + ssimC2 := by
    rw [abs_le]
    constructor
    · nlinarith [hcs, sq_nonneg (s1 - s2), sq_nonneg (s1 + s2 + 2 * cv)]
    · nlinarith [hcs, sq_nonneg (s1 - s2), sq_nonneg (s1 + s2 - 2 * cv)]
  have habs : |(2 * m1 * m2 + ssimC1) * (2 * cv + ssimC2)|
      ≤ (m1 ^ 2 + m2 ^ 2 + ssimC1) * (s1 + s2 + ssimC2) := by
    rw [abs_mul]
    exact mul_le_mul hA hB (abs_nonneg _) (by linarith)
  obtain ⟨hlow, hup⟩ := abs_le.1 habs
  have hDpos : 0 < (m1 ^ 2 + m2 ^ 2 + ssimC1) * (s1 + s2 + ssimC2) := mul_pos hD1 hD2
  constructor
  · rw [le_div_iff₀ hDpos]
    linarith
  · rw [div_le_one hDpos]
    exact hup

theorem ssimMap_bounds (x y : NDImg) (i j k : ℕ) :
    -1 ≤ ssimMap x y i j k ∧ ssimMap x y i j k ≤ 1 := by
  have core := ssim_core_bounds (Finset.range 11 ×ˢ Finset.range 11)
    (fun p => gw p.1 * gw p.2)
    (fun p => (x.pix (reflect101 x.h ((i : ℤ) + p.1 - 5))
      (reflect101 x.w ((j : ℤ) + p.2 - 5)) k : ℝ))
    (fun p => (y.pix (reflect101 x.h ((i : ℤ) + p.1 - 5))
      (reflect101 x.w ((j : ℤ) + p.2 - 5)) k : ℝ))
    (fun p _ => wpair_nonneg p) wpair_sum
  have h1 := gblur11_eq x.h x.w (fun a b => (x.pix a b k : ℝ)) i j
  have h2 := gblur11_eq x.h x.w (fun a b => (y.pix a b k : ℝ)) i j
  have h3 := gblur11_eq x.h x.w (fun a b => (x.pix a b k : ℝ) ^ 2) i j
  have h4 := gblur11_eq x.h x.w (fun a b => (y.pix a b k : ℝ) ^ 2) i j
  have h5 := gblur11_eq x.h x.w (fun a b => (x.pix a b k : ℝ) * (y.pix a b k : ℝ)) i j
  simp only [ssimMap, h1, h2, h3, h4, h5]
  exact core

theorem ssimMap_self (x : NDImg) (i j k : ℕ) : ssimMap x x i j k = 1 := by
  simp only [ssimMap]
  have hconv : gblur11 x.h x.w (fun a b => (x.pix a b k : ℝ) * (x.pix a b k : ℝ)) i j
      = gblur11 x.h x.w (fun a b => (x.pix a b k : ℝ) ^ 2) i j := by
    unfold gblur11
    refine Finset.sum_congr rfl fun a _ => Finset.sum_congr rfl fun b _ => ?_
    ring
  rw [hconv]
  have hm := gblur11_eq x.h x.w (fun a b => (x.pix a b k : ℝ)) i j
  have hb2 := gblur11_eq x.h x.w (fun a b => (x.pix a b k : ℝ) ^ 2) i j
  have hsq := wavg_sq_le (Finset.range 11 ×ˢ Finset.range 11)
    (fun p => gw p.1 * gw p.2)
    (fun p => (x.pix (reflect101 x.h ((i : ℤ) + p.1 - 5))
      (reflect101 x.w ((j : ℤ) + p.2 - 5)) k : ℝ))
    (fun p _ => wpair_nonneg p) wpair_sum
  rw [← hm, ← hb2] at hsq
  set m := gblur11 x.h x.w (fun a b => (x.pix a b k : ℝ)) i j with hmdef
  set b2 := gblur11 x.h x.w (fun a b => (x.pix a b k : ℝ) ^ 2) i j with hb2def
  have hC1 := ssimC1_pos
  have hC2 := ssimC2_pos
  have hD : 0 < (m ^ 2 + m ^ 2 + ssimC1) * (b2 - m ^ 2 + (b2 - m ^ 2) + ssimC2) := by
    apply mul_pos
    · nlinarith [sq_nonneg m]
    · nlinarith [hsq]
  rw [show (2 * m * m + ssimC1) * (2 * (b2 - m * m) + ssimC2)
      = (m ^ 2 + m ^ 2 + ssimC1) * (b2 - m ^ 2 + (b2 - m ^ 2) + ssimC2) by ring]
  exact div_self (ne_of_gt hD)

theorem sum_range_ge (n : ℕ) (g : ℕ → ℝ) (L : ℝ)
    (h : ∀ a ∈ Finset.range n, L ≤ g a) :
    (n : ℝ) * L ≤ ∑ a ∈ Finset.range n, g a := by
  calc (n : ℝ) * L = (Finset.range n).card • L := by
        simp [nsmul_eq_mul]
    _ ≤ ∑ a ∈ Finset.range n, g a := Finset.card_nsmul_le_sum _ _ _ h

theorem sum_range_le (n : ℕ) (g : ℕ → ℝ) (L : ℝ)
    (h : ∀ a ∈ Finset.range n, g a ≤ L) :
    (∑ a ∈ Finset.range n, g a) ≤ (n : ℝ) * L := by
  calc (∑ a ∈ Finset.range n, g a) ≤ (Finset.range n).card • L :=
        Finset.sum_le_card_nsmul _ _ _ h
    _ = (n : ℝ) * L := by simp [nsmul_eq_mul]

theorem elemCount_ne_zero (x : NDImg) (hv : verify_image x = true) :
    elemCount x ≠ 0 := by
  unfold verify_image at hv
  simp only [Bool.and_eq_true, Bool.or_eq_true, beq_iff_eq, bne_iff_ne, ne_eq,
    decide_eq_true_eq] at hv
  obtain ⟨⟨hlen, _⟩, hsz⟩ := hv
  rcases hlen with h2 | h3
  · obtain ⟨a, b, hsh⟩ := List.length_eq_two.1 h2
    unfold elemCount NDImg.h NDImg.w NDImg.cEff
    unfold NDImg.size at hsz
    rw [hsh] at hsz ⊢
    simp at hsz ⊢
    tauto
  · obtain ⟨a, b, c, hsh⟩ := List.length_eq_three.1 h3
    unfold elemCount NDImg.h NDImg.w NDImg.cEff
    unfold NDImg.size at hsz
    rw [hsh] at hsz ⊢
    simp at hsz ⊢
    tauto

theorem ssimMean_bounds (x y : NDImg) (hn : elemCount x ≠ 0) :
    -1 ≤ ssimMean x y ∧ ssimMean x y ≤ 1 := by
  have hpos : (0 : ℝ) < (elemCount x : ℝ) := by
    exact_mod_cast Nat.pos_of_ne_zero hn
  have hlo : ((x.h : ℝ) * ((x.w : ℝ) * ((x.cEff : ℝ) * (-1))))
      ≤ ∑ i ∈ Finset.range x.h, ∑ j ∈ Finset.range x.w,
          ∑ k ∈ Finset.range x.cEff, ssimMap x y i j k := by
    apply sum_range_ge
    intro i _
    apply sum_range_ge
    intro j _
    apply sum_range_ge
    intro k _
    exact (ssimMap_bounds x y i j k).1
  have hhi : (∑ i ∈ Finset.range x.h, ∑ j ∈ Finset.range x.w,
        ∑ k ∈ Finset.range x.cEff, ssimMap x y i j k)
      ≤ (x.h : ℝ) * ((x.w : ℝ) * ((x.cEff : ℝ) * 1)) := by
    apply sum_range_le
    intro i _
    apply sum_range_le
    intro j _
    apply sum_range_le
    intro k _
    exact (ssimMap_bounds x y i j k).2
  have hcount : (elemCount x : ℝ) = (x.h : ℝ) * (x.w : ℝ) * (x.cEff : ℝ) := by
    unfold elemCount
    push_cast
    ring
  unfold ssimMean
  constructor
  · rw [le_div_iff₀ hpos, hcount]
    nlinarith [hlo]
  · rw [div_le_one hpos, hcount]
    nlinarith [hhi]

theorem ssimMean_self (x : NDImg) (hn : elemCount x ≠ 0) : ssimMean x x = 1 := by
  have hne : ((elemCount x : ℝ)) ≠ 0 := by exact_mod_cast hn
  unfold ssimMean
  rw [Finset.sum_congr rfl fun i (_ : i ∈ Finset.range x.h) =>
    Finset.sum_congr rfl fun j (_ : j ∈ Finset.range x.w) =>
      Finset.sum_congr rfl fun k (_ : k ∈ Finset.range x.cEff) => ssimMap_self x i j k]
  simp only [Finset.sum_const, Finset.card_range, nsmul_eq_mul, mul_one]
  rw [show ((x.h : ℝ) * ((x.w : ℝ) * (x.cEff : ℝ))) = (elemCount x : ℝ) by
    unfold elemCount; push_cast; ring]
  exact div_self hne

/-- C4: for same-shape images with the smaller dimension at least 7 and
a well-formed original, `calculate_ssim` — the mean of the
Gaussian-windowed SSIM map with `C1 = (0.01·255)²`, `C2 = (0.03·255)²` —
lies in `[-1, 1]`, and `calculate_ssim X X = 1` exactly (the claim's
"within floating tolerance" is exact in the real-valued model). -/
theorem c4_ssim_bounds_identity (x y : NDImg) (hsh : x.shape = y.shape)
    (h7 : 7 ≤ min x.h x.w) (hv : verify_image x = true) :
    (-1 ≤ calculate_ssim x y ∧ calculate_ssim x y ≤ 1) ∧ calculate_ssim x x = 1 := by
  have hn := elemCount_ne_zero x hv
  have e1 : calculate_ssim x y = ssimMean x y := by simp [calculate_ssim, hsh]
  have e2 : calculate_ssim x x = ssimMean x x := by simp [calculate_ssim]
  rw [e1, e2]
  exact ⟨ssimMean_bounds x y hn, ssimMean_self x hn⟩

/-- C4 witness: the SSIM bounds and identity instantiated at the
concrete 7×7 image. -/
theorem c4_ssim_bounds_identity_witness :
    (img7.shape = img7.shape ∧ 7 ≤ min img7.h img7.w ∧ verify_image img7 = true)
      ∧ ((-1 ≤ calculate_ssim img7 img7 ∧ calculate_ssim img7 img7 ≤ 1)
         ∧ calculate_ssim img7 img7 = 1) :=
  ⟨⟨rfl, by decide, by decide⟩,
   c4_ssim_bounds_identity img7 img7 rfl (by decide) (by decide)⟩

end Restauracion
